import Mathlib

/-!
Verification of the stroopwafel library: macaroon-style bearer tokens with
chained keyed-MAC signatures (src/stroopwafel.rs, src/caveat.rs, src/crypto.rs,
src/predicate.rs, src/verifier.rs, src/serialization.rs).

Modelling conventions:
* Byte strings (Rust Vec of u8, u8 slices, and the 32-byte signature array) are
  lists of naturals; where byte-ness matters it appears as an explicit bound.
* Rust String values are modelled by their UTF-8 byte lists except in the
  predicate grammar, where the parser is modelled over lists of characters
  (all operators are ASCII, so byte positions and character positions agree).
* The keyed MAC primitive HMAC-SHA3-256 comes from external crates; the spec
  (sections 4.1 and 6.3) treats it as a black-box keyed MAC, so every
  definition and theorem is parameterized over an arbitrary MAC function.
* Error payload strings are modelled by the byte data that the Rust code
  formats into them (the format! presentation itself is not re-implemented;
  String.from_utf8_lossy is modelled as the identity on the raw bytes).
-/

/-- Byte strings, modelled as lists of naturals. -/
abbrev Bytes := List Nat

/-- Type of the keyed MAC primitive (crypto.rs hmac_sha3): key, message, tag. -/
abbrev Mac := Bytes → Bytes → Bytes

/-- crypto.rs bind_caveat: the previous signature is the key for the next MAC. -/
def bind_caveat (hmac : Mac) (signature caveat_id : Bytes) : Bytes :=
  hmac signature caveat_id

/-- caveat.rs Caveat: one restriction. The two optional fields are both absent
for first-party caveats and both present for caveats built by third_party. -/
structure Caveat where
  caveat_id : Bytes
  verification_key_id : Option Bytes
  location : Option Bytes
deriving DecidableEq

/-- caveat.rs Caveat::first_party. -/
def Caveat.first_party (caveat_id : Bytes) : Caveat :=
  ⟨caveat_id, none, none⟩

/-- caveat.rs Caveat::third_party. -/
def Caveat.third_party (caveat_id verification_key_id location : Bytes) : Caveat :=
  ⟨caveat_id, some verification_key_id, some location⟩

/-- caveat.rs Caveat::is_first_party: both optional fields must be absent. -/
def Caveat.is_first_party (c : Caveat) : Bool :=
  c.verification_key_id.isNone && c.location.isNone

/-- caveat.rs Caveat::is_third_party. -/
def Caveat.is_third_party (c : Caveat) : Bool :=
  !c.is_first_party

/-- The binding input of a caveat (spec section 3): the caveat_id when there is
no verification_key_id, otherwise the verification_key_id. -/
def Caveat.bindingInput (c : Caveat) : Bytes :=
  match c.verification_key_id with
  | none => c.caveat_id
  | some vk => vk

/-- stroopwafel.rs Stroopwafel: the token record. -/
structure Stroopwafel where
  location : Option Bytes
  identifier : Bytes
  caveats : List Caveat
  signature : Bytes
deriving DecidableEq

/-- stroopwafel.rs Stroopwafel::new (minting). -/
def Stroopwafel.new (hmac : Mac) (root_key identifier : Bytes)
    (location : Option Bytes) : Stroopwafel :=
  { location := location
    identifier := identifier
    caveats := []
    signature := hmac root_key identifier }

/-- stroopwafel.rs Stroopwafel::add_first_party_caveat. -/
def Stroopwafel.add_first_party_caveat (hmac : Mac) (s : Stroopwafel)
    (predicate : Bytes) : Stroopwafel :=
  { s with
    signature := bind_caveat hmac s.signature predicate
    caveats := s.caveats ++ [Caveat.first_party predicate] }

/-- stroopwafel.rs Stroopwafel::add_third_party_caveat: the binding input is
the verification_key_id. -/
def Stroopwafel.add_third_party_caveat (hmac : Mac) (s : Stroopwafel)
    (caveat_id verification_key_id location : Bytes) : Stroopwafel :=
  { s with
    signature := bind_caveat hmac s.signature verification_key_id
    caveats := s.caveats ++ [Caveat.third_party caveat_id verification_key_id location] }

/-- stroopwafel.rs Stroopwafel::create_discharge. -/
def Stroopwafel.create_discharge (hmac : Mac) (verification_key caveat_id : Bytes)
    (location : Option Bytes) : Stroopwafel :=
  Stroopwafel.new hmac verification_key caveat_id location

/-- stroopwafel.rs Stroopwafel::bind_discharge: a copy of the discharge whose
signature is MAC(discharge signature, primary signature). -/
def Stroopwafel.bind_discharge (hmac : Mac) (s discharge : Stroopwafel) : Stroopwafel :=
  { discharge with signature := hmac discharge.signature s.signature }

/-- One append operation on a token, as performed by the two add methods. -/
inductive AddOp where
| first (predicate : Bytes)
| third (caveat_id verification_key_id location : Bytes)
deriving DecidableEq

/-- The caveat record an append operation pushes. -/
def AddOp.toCaveat : AddOp → Caveat
| .first p => Caveat.first_party p
| .third cid vk loc => Caveat.third_party cid vk loc

/-- The binding input of an append operation: the predicate for a first-party
append, the verification_key_id for a third-party append. -/
def AddOp.bindingInput : AddOp → Bytes
| .first p => p
| .third _ vk _ => vk

/-- Run one append operation. -/
def AddOp.apply (hmac : Mac) (s : Stroopwafel) : AddOp → Stroopwafel
| .first p => s.add_first_party_caveat hmac p
| .third cid vk loc => s.add_third_party_caveat hmac cid vk loc

/-- Run a sequence of append operations in order. -/
def Stroopwafel.addAll (hmac : Mac) (s : Stroopwafel) (ops : List AddOp) : Stroopwafel :=
  ops.foldl (AddOp.apply hmac) s

/-- error.rs StroopwafelError. Message payloads carry the data formatted into
the Rust message string. -/
inductive StroopwafelError where
| InvalidSignature
| CaveatViolation (message : Bytes)
| DeserializationError (message : Bytes)
| InvalidFormat (message : Bytes)
| CryptoError (message : Bytes)
| InvalidKeyLength
deriving DecidableEq

instance {ε α : Type} [DecidableEq ε] [DecidableEq α] : DecidableEq (Except ε α) :=
  fun x y =>
  match x, y with
  | .ok a, .ok b =>
    if h : a = b then isTrue (by rw [h]) else isFalse (fun hc => h (Except.ok.inj hc))
  | .ok _, .error _ => isFalse (fun hc => Except.noConfusion hc)
  | .error _, .ok _ => isFalse (fun hc => Except.noConfusion hc)
  | .error a, .error b =>
    if h : a = b then isTrue (by rw [h]) else isFalse (fun hc => h (Except.error.inj hc))

/-- UTF-8 bytes of an ASCII string literal (code points equal bytes on ASCII). -/
def litBytes (s : String) : Bytes :=
  s.data.map Char.toNat

/-- verifier.rs Verifier: the single-operation capability verify_caveat,
modelled as a function from predicate bytes to a result. -/
abbrev Verifier := Bytes → Except StroopwafelError Unit

/-- verifier.rs AcceptAllVerifier. -/
def AcceptAllVerifier : Verifier := fun _ => .ok ()

/-- verifier.rs RejectAllVerifier: rejects with the predicate bytes as message. -/
def RejectAllVerifier : Verifier := fun predicate =>
  .error (.CaveatViolation predicate)

/-- One step of the signature-chain rebuild in Stroopwafel::verify (and the
identical loop in verify_discharge): first-party caveats bind the caveat_id,
third-party caveats bind the verification_key_id when present and are skipped
when it is absent. -/
def chainStep (hmac : Mac) (signature : Bytes) (c : Caveat) : Bytes :=
  if c.is_first_party then bind_caveat hmac signature c.caveat_id
  else
    match c.verification_key_id with
    | some vk => bind_caveat hmac signature vk
    | none => signature

/-- The rebuilt signature chain: MAC of the key and identifier, then one
chainStep per caveat in order. -/
def computeChain (hmac : Mac) (key identifier : Bytes) (caveats : List Caveat) : Bytes :=
  caveats.foldl (chainStep hmac) (hmac key identifier)

/-- The loop in Stroopwafel::verify_discharge step 4: run the verifier on each
first-party caveat in order, short-circuiting on the first error. -/
def checkFirstPartyCaveats (verifier : Verifier) : List Caveat → Except StroopwafelError Unit
| [] => .ok ()
| c :: rest =>
  if c.is_first_party then
    match verifier c.caveat_id with
    | .ok _ => checkFirstPartyCaveats verifier rest
    | .error e => .error e
  else checkFirstPartyCaveats verifier rest

/-- Payload of the missing-discharge CaveatViolation raised in
Stroopwafel::verify_third_party_caveat. -/
def missingDischargeMessage (caveat_id : Bytes) : Bytes :=
  litBytes "Missing discharge macaroon for caveat: " ++ caveat_id

/-- Payload of the InvalidFormat raised when a third-party caveat has no
verification_key_id in Stroopwafel::verify_third_party_caveat. -/
def missingVerificationKeyMessage : Bytes :=
  litBytes "Third-party caveat missing verification key"

/-- stroopwafel.rs Stroopwafel::verify_discharge: rebuild the discharge chain
under the verification key, bind with the primary signature, compare, then
check the discharge's first-party caveats. -/
def Stroopwafel.verify_discharge (hmac : Mac) (d : Stroopwafel)
    (verification_key primary_signature : Bytes) (verifier : Verifier) :
    Except StroopwafelError Unit :=
  let computed := computeChain hmac verification_key d.identifier d.caveats
  let expected := hmac computed primary_signature
  if expected = d.signature then checkFirstPartyCaveats verifier d.caveats
  else .error .InvalidSignature

/-- stroopwafel.rs Stroopwafel::verify_third_party_caveat: find the first
discharge whose identifier equals the caveat_id, require a
verification_key_id, then verify the discharge. -/
def Stroopwafel.verify_third_party_caveat (hmac : Mac) (s : Stroopwafel) (c : Caveat)
    (discharges : List Stroopwafel) (verifier : Verifier) : Except StroopwafelError Unit :=
  match discharges.find? (fun d => decide (d.identifier = c.caveat_id)) with
  | none => .error (.CaveatViolation (missingDischargeMessage c.caveat_id))
  | some d =>
    match c.verification_key_id with
    | none => .error (.InvalidFormat missingVerificationKeyMessage)
    | some vk => Stroopwafel.verify_discharge hmac d vk s.signature verifier

/-- The caveat loop of Stroopwafel::verify step 3, short-circuiting on the
first failing caveat. -/
def Stroopwafel.verifyCaveats (hmac : Mac) (s : Stroopwafel) (verifier : Verifier)
    (discharges : List Stroopwafel) : List Caveat → Except StroopwafelError Unit
| [] => .ok ()
| c :: rest =>
  match (if c.is_first_party then verifier c.caveat_id
         else s.verify_third_party_caveat hmac c discharges verifier) with
  | .ok _ => s.verifyCaveats hmac verifier discharges rest
  | .error e => .error e

/-- stroopwafel.rs Stroopwafel::verify: rebuild the chain, compare with the
stored signature, then verify every caveat in order. -/
def Stroopwafel.verify (hmac : Mac) (s : Stroopwafel) (root_key : Bytes)
    (verifier : Verifier) (discharges : List Stroopwafel) : Except StroopwafelError Unit :=
  if computeChain hmac root_key s.identifier s.caveats = s.signature
  then s.verifyCaveats hmac verifier discharges s.caveats
  else .error .InvalidSignature

/-! ### Chain lemmas for the append operations -/

theorem AddOp.apply_identifier (hmac : Mac) (s : Stroopwafel) (op : AddOp) :
    (AddOp.apply hmac s op).identifier = s.identifier := by
  cases op <;> rfl

theorem AddOp.apply_caveats (hmac : Mac) (s : Stroopwafel) (op : AddOp) :
    (AddOp.apply hmac s op).caveats = s.caveats ++ [op.toCaveat] := by
  cases op <;> rfl

theorem AddOp.apply_signature (hmac : Mac) (s : Stroopwafel) (op : AddOp) :
    (AddOp.apply hmac s op).signature = bind_caveat hmac s.signature op.bindingInput := by
  cases op <;> rfl

theorem Stroopwafel.addAll_identifier (hmac : Mac) (ops : List AddOp) :
    ∀ s : Stroopwafel, (s.addAll hmac ops).identifier = s.identifier := by
  induction ops with
  | nil => intro s; rfl
  | cons op ops ih =>
    intro s
    calc (s.addAll hmac (op :: ops)).identifier
        = ((AddOp.apply hmac s op).addAll hmac ops).identifier := rfl
      _ = (AddOp.apply hmac s op).identifier := ih _
      _ = s.identifier := AddOp.apply_identifier hmac s op

theorem Stroopwafel.addAll_caveats (hmac : Mac) (ops : List AddOp) :
    ∀ s : Stroopwafel, (s.addAll hmac ops).caveats = s.caveats ++ ops.map AddOp.toCaveat := by
  induction ops with
  | nil => intro s; simp [Stroopwafel.addAll]
  | cons op ops ih =>
    intro s
    calc (s.addAll hmac (op :: ops)).caveats
        = ((AddOp.apply hmac s op).addAll hmac ops).caveats := rfl
      _ = (AddOp.apply hmac s op).caveats ++ ops.map AddOp.toCaveat := ih _
      _ = s.caveats ++ [op.toCaveat] ++ ops.map AddOp.toCaveat := by
            rw [AddOp.apply_caveats]
      _ = s.caveats ++ (op :: ops).map AddOp.toCaveat := by simp

theorem Stroopwafel.addAll_signature (hmac : Mac) (ops : List AddOp) :
    ∀ s : Stroopwafel, (s.addAll hmac ops).signature
      = (ops.map AddOp.bindingInput).foldl (bind_caveat hmac) s.signature := by
  induction ops with
  | nil => intro s; rfl
  | cons op ops ih =>
    intro s
    calc (s.addAll hmac (op :: ops)).signature
        = ((AddOp.apply hmac s op).addAll hmac ops).signature := rfl
      _ = (ops.map AddOp.bindingInput).foldl (bind_caveat hmac)
            (AddOp.apply hmac s op).signature := ih _
      _ = ((op :: ops).map AddOp.bindingInput).foldl (bind_caveat hmac) s.signature := by
            rw [AddOp.apply_signature]; rfl

theorem AddOp.toCaveat_bindingInput (op : AddOp) :
    op.toCaveat.bindingInput = op.bindingInput := by
  cases op <;> rfl

theorem chainStep_toCaveat (hmac : Mac) (signature : Bytes) (op : AddOp) :
    chainStep hmac signature op.toCaveat = bind_caveat hmac signature op.bindingInput := by
  cases op <;>
    simp [chainStep, AddOp.toCaveat, AddOp.bindingInput, Caveat.is_first_party,
      Caveat.first_party, Caveat.third_party]

/-- The chain rebuilt over caveats produced by append operations equals the
fold of the binding inputs. -/
theorem computeChain_map_toCaveat (hmac : Mac) (key identifier : Bytes) (ops : List AddOp) :
    computeChain hmac key identifier (ops.map AddOp.toCaveat)
      = (ops.map AddOp.bindingInput).foldl (bind_caveat hmac) (hmac key identifier) := by
  unfold computeChain
  generalize hmac key identifier = start
  induction ops generalizing start with
  | nil => rfl
  | cons op ops ih =>
    simp only [List.map_cons, List.foldl_cons, chainStep_toCaveat]
    exact ih _

/-- Verification of a token built by new and addAll passes the signature
comparison against the minting root key. -/
theorem computeChain_addAll (hmac : Mac) (root_key identifier : Bytes)
    (location : Option Bytes) (ops : List AddOp) :
    computeChain hmac root_key
        ((Stroopwafel.new hmac root_key identifier location).addAll hmac ops).identifier
        ((Stroopwafel.new hmac root_key identifier location).addAll hmac ops).caveats
      = ((Stroopwafel.new hmac root_key identifier location).addAll hmac ops).signature := by
  rw [Stroopwafel.addAll_identifier, Stroopwafel.addAll_caveats, Stroopwafel.addAll_signature]
  show computeChain hmac root_key identifier ([] ++ ops.map AddOp.toCaveat) = _
  rw [List.nil_append, computeChain_map_toCaveat]
  rfl

/-- C1: for every MAC, root key, identifier, location and finite sequence of
append operations (first- or third-party) applied in order to a freshly minted
token, the token's signature is the left fold of the MAC over the binding
inputs of its caveats, starting from MAC(root key, identifier); the binding
input is the caveat_id for a first-party caveat and the verification_key_id
for a third-party caveat.  Quantifying over all operation sequences means the
equation holds after every append operation. -/
theorem C1_chain_extension (hmac : Mac) (root_key identifier : Bytes)
    (location : Option Bytes) (ops : List AddOp) :
    ((Stroopwafel.new hmac root_key identifier location).addAll hmac ops).signature
      = (((Stroopwafel.new hmac root_key identifier location).addAll hmac ops).caveats.map
          Caveat.bindingInput).foldl (bind_caveat hmac) (hmac root_key identifier) := by
  rw [Stroopwafel.addAll_signature, Stroopwafel.addAll_caveats]
  show _ = (([] ++ ops.map AddOp.toCaveat).map Caveat.bindingInput).foldl _ _
  rw [List.nil_append, List.map_map]
  have : (Caveat.bindingInput ∘ AddOp.toCaveat) = AddOp.bindingInput := by
    funext op; exact AddOp.toCaveat_bindingInput op
  rw [this]
  rfl

/-- The AcceptAll verifier passes every list of first-party caveats. -/
theorem verifyCaveats_first_party_acceptAll (hmac : Mac) (s : Stroopwafel)
    (discharges : List Stroopwafel) :
    ∀ cs : List Caveat, (∀ c ∈ cs, c.is_first_party = true) →
      s.verifyCaveats hmac AcceptAllVerifier discharges cs = .ok () := by
  intro cs
  induction cs with
  | nil => intro _; rfl
  | cons c rest ih =>
    intro h
    have hc : c.is_first_party = true := h c (List.mem_cons_self c rest)
    simp only [Stroopwafel.verifyCaveats, hc, if_pos]
    exact ih (fun c' hc' => h c' (List.mem_cons_of_mem c hc'))

/-- C2: minting a token, appending any finite sequence of first-party caveats
in order, and verifying with the same root key, the AcceptAll verifier and an
empty discharge list returns Ok. -/
theorem C2_verify_mint_inverse (hmac : Mac) (root_key identifier : Bytes)
    (location : Option Bytes) (preds : List Bytes) :
    ((Stroopwafel.new hmac root_key identifier location).addAll hmac
        (preds.map AddOp.first)).verify hmac root_key AcceptAllVerifier [] = .ok () := by
  unfold Stroopwafel.verify
  rw [if_pos (computeChain_addAll hmac root_key identifier location (preds.map AddOp.first))]
  apply verifyCaveats_first_party_acceptAll
  intro c hc
  rw [Stroopwafel.addAll_caveats] at hc
  simp only [Stroopwafel.new, List.nil_append, List.map_map, List.mem_map] at hc
  obtain ⟨p, _, hp⟩ := hc
  subst hp
  rfl

/-- A key-injective MAC keeps distinct chain values distinct through each
chain step. -/
theorem foldl_chainStep_ne (hmac : Mac)
    (hinj : ∀ a b m : Bytes, hmac a m = hmac b m → a = b) (cs : List Caveat) :
    ∀ s1 s2 : Bytes, s1 ≠ s2 →
      cs.foldl (chainStep hmac) s1 ≠ cs.foldl (chainStep hmac) s2 := by
  induction cs with
  | nil => intro s1 s2 h; exact h
  | cons c rest ih =>
    intro s1 s2 h
    simp only [List.foldl_cons]
    apply ih
    intro hstep
    apply h
    unfold chainStep at hstep
    by_cases hfp : c.is_first_party
    · rw [if_pos hfp, if_pos hfp] at hstep
      exact hinj _ _ _ hstep
    · rw [if_neg hfp, if_neg hfp] at hstep
      cases hvk : c.verification_key_id with
      | none => rw [hvk] at hstep; exact hstep
      | some vk => rw [hvk] at hstep; exact hinj _ _ _ hstep

/-- C3: verifying a minted (and arbitrarily attenuated) token with a root key
different from the minting key fails, and the error is InvalidSignature.  The
MAC primitive is idealized as injective in its key argument (collisions of
HMAC-SHA3-256 are assumed not to occur). -/
theorem C3_wrong_key (hmac : Mac)
    (hinj : ∀ a b m : Bytes, hmac a m = hmac b m → a = b)
    (root_key other_key identifier : Bytes) (location : Option Bytes)
    (ops : List AddOp) (verifier : Verifier) (discharges : List Stroopwafel)
    (hne : other_key ≠ root_key) :
    ((Stroopwafel.new hmac root_key identifier location).addAll hmac ops).verify hmac
        other_key verifier discharges = .error .InvalidSignature := by
  have hcond : computeChain hmac other_key
      ((Stroopwafel.new hmac root_key identifier location).addAll hmac ops).identifier
      ((Stroopwafel.new hmac root_key identifier location).addAll hmac ops).caveats
      ≠ ((Stroopwafel.new hmac root_key identifier location).addAll hmac ops).signature := by
    rw [← computeChain_addAll hmac root_key identifier location ops]
    rw [Stroopwafel.addAll_identifier]
    unfold computeChain
    apply foldl_chainStep_ne hmac hinj
    intro h
    exact hne (hinj other_key root_key _ h)
  unfold Stroopwafel.verify
  rw [if_neg hcond]

/-- Concrete instantiation of the wrong-key theorem: the MAC witness
fun a m => a is injective in its key argument. -/
theorem C3_wrong_key_witness :
    (([2] : Bytes) ≠ [1]) ∧
    ((Stroopwafel.new (fun a _ => a) [1] [3] none).addAll (fun a _ => a) []).verify
        (fun a _ => a) [2] AcceptAllVerifier [] = .error .InvalidSignature :=
  ⟨by decide,
   C3_wrong_key (fun a _ => a) (fun _ _ _ h => h) [1] [2] [3] none [] AcceptAllVerifier []
     (by decide)⟩

/-- C8: bind_discharge returns a token whose signature is
MAC(discharge signature, primary signature) and whose location, identifier and
caveats are exactly those of the discharge.  The embedding is purely
functional, so the primary and discharge arguments are unchanged by
construction. -/
theorem C8_bind_discharge_frame (hmac : Mac) (p d : Stroopwafel) :
    (p.bind_discharge hmac d).signature = hmac d.signature p.signature ∧
    (p.bind_discharge hmac d).location = d.location ∧
    (p.bind_discharge hmac d).identifier = d.identifier ∧
    (p.bind_discharge hmac d).caveats = d.caveats :=
  ⟨rfl, rfl, rfl, rfl⟩

/-- find? returns the first match: everything before the first satisfying
element is skipped and everything after it is ignored. -/
theorem find?_first_match {α : Type} (p : α → Bool) (d : α) :
    ∀ pre : List α, (∀ x ∈ pre, p x = false) → p d = true →
      ∀ post : List α, (pre ++ d :: post).find? p = some d := by
  intro pre
  induction pre with
  | nil =>
    intro _ hd post
    simp [List.find?, hd]
  | cons x pre ih =>
    intro h hd post
    have hx : p x = false := h x (List.mem_cons_self x pre)
    simp only [List.cons_append, List.find?, hx]
    exact ih (fun y hy => h y (List.mem_cons_of_mem x hy)) hd post

/-- C9: during verification of a third-party caveat the discharge consulted is
the first element of the discharge list whose identifier equals the caveat's
caveat_id — later matches (duplicates included) are never consulted, so the
result over pre ++ d :: post equals the result over the single-element list
d when d is the first match; and when no discharge matches, the result is a
CaveatViolation carrying the missing caveat's identifier. -/
theorem C9_discharge_lookup_first_match (hmac : Mac) (s : Stroopwafel) (c : Caveat)
    (pre post : List Stroopwafel) (d : Stroopwafel) (verifier : Verifier)
    (hd : d.identifier = c.caveat_id)
    (hpre : ∀ d' ∈ pre, d'.identifier ≠ c.caveat_id) :
    (s.verify_third_party_caveat hmac c (pre ++ d :: post) verifier
        = s.verify_third_party_caveat hmac c [d] verifier) ∧
    (∀ ds : List Stroopwafel, (∀ d' ∈ ds, d'.identifier ≠ c.caveat_id) →
      s.verify_third_party_caveat hmac c ds verifier
        = .error (.CaveatViolation (missingDischargeMessage c.caveat_id))) := by
  constructor
  · have h1 : (pre ++ d :: post).find? (fun d' => decide (d'.identifier = c.caveat_id))
        = some d := by
      apply find?_first_match _ d pre
      · intro x hx
        exact decide_eq_false (hpre x hx)
      · exact decide_eq_true hd
    have h2 : ([d] : List Stroopwafel).find? (fun d' => decide (d'.identifier = c.caveat_id))
        = some d := by
      have : ([] ++ d :: [] : List Stroopwafel) = [d] := rfl
      rw [← this]
      exact find?_first_match _ d [] (by intro x hx; cases hx) (decide_eq_true hd) []
    unfold Stroopwafel.verify_third_party_caveat
    rw [h1, h2]
  · intro ds hds
    have hnone : ds.find? (fun d' => decide (d'.identifier = c.caveat_id)) = none := by
      rw [List.find?_eq_none]
      intro x hx
      simp only [decide_eq_true_eq]
      exact hds x hx
    unfold Stroopwafel.verify_third_party_caveat
    rw [hnone]

/-- Concrete instantiation of the first-match lookup theorem: a non-matching
discharge before the match and a duplicate match after it. -/
theorem C9_discharge_lookup_first_match_witness :
    ((⟨none, [9], [], [7]⟩ : Stroopwafel).verify_third_party_caveat (fun a _ => a)
        (Caveat.third_party [1] [5] [6])
        ([⟨none, [2], [], [8]⟩] ++ (⟨none, [1], [], [3]⟩ : Stroopwafel) ::
          [⟨none, [1], [], [4]⟩]) AcceptAllVerifier
      = (⟨none, [9], [], [7]⟩ : Stroopwafel).verify_third_party_caveat (fun a _ => a)
        (Caveat.third_party [1] [5] [6]) [⟨none, [1], [], [3]⟩] AcceptAllVerifier) ∧
    (⟨none, [9], [], [7]⟩ : Stroopwafel).verify_third_party_caveat (fun a _ => a)
        (Caveat.third_party [1] [5] [6]) [] AcceptAllVerifier
      = .error (.CaveatViolation (missingDischargeMessage [1])) := by
  have h := C9_discharge_lookup_first_match (fun a _ => a) ⟨none, [9], [], [7]⟩
    (Caveat.third_party [1] [5] [6]) [⟨none, [2], [], [8]⟩] [⟨none, [1], [], [4]⟩]
    ⟨none, [1], [], [3]⟩ AcceptAllVerifier (by decide) (by decide)
  exact ⟨h.1, h.2 [] (by intro x hx; cases hx)⟩

/-- C10: a caveat that is classified as third-party yet has no
verification_key_id (possible after deserialization, when a caveat carries a
location but no verification_key_id) contributes nothing to the rebuilt MAC
chain used by verify and verify_discharge: each chain step leaves the running
signature unchanged, so removing the caveat from the list leaves the rebuilt
chain identical, and no error arises from the rebuild. -/
theorem C10_vkless_third_party_skipped (hmac : Mac) (key identifier : Bytes)
    (c : Caveat) (pre post : List Caveat)
    (h1 : c.is_first_party = false) (h2 : c.verification_key_id = none) :
    (∀ signature : Bytes, chainStep hmac signature c = signature) ∧
    computeChain hmac key identifier (pre ++ c :: post)
      = computeChain hmac key identifier (pre ++ post) := by
  have hstep : ∀ signature : Bytes, chainStep hmac signature c = signature := by
    intro signature
    unfold chainStep
    rw [h1]
    simp only [Bool.false_eq_true, if_false, h2]
  refine ⟨hstep, ?_⟩
  unfold computeChain
  rw [List.foldl_append, List.foldl_append, List.foldl_cons, hstep]

/-- Concrete instantiation of the skipped-caveat theorem: a deserialized-style
caveat with a location but no verification_key_id. -/
theorem C10_vkless_third_party_skipped_witness :
    (Caveat.mk [5] none (some [6])).is_first_party = false ∧
    computeChain (fun a _ => a) [1] [2]
        ([Caveat.first_party [7]] ++ (Caveat.mk [5] none (some [6])) :: [])
      = computeChain (fun a _ => a) [1] [2] ([Caveat.first_party [7]] ++ []) :=
  ⟨by decide,
   (C10_vkless_third_party_skipped (fun a _ => a) [1] [2] (Caveat.mk [5] none (some [6]))
     [Caveat.first_party [7]] [] (by decide) (by decide)).2⟩

/-- Counterexample to C5 as stated: a caveat whose verification_key_id is
absent but whose location is present is not classified first-party, so the
classification does depend on the location field. -/
theorem C5_counterexample :
    (Caveat.mk [97] none (some [98])).verification_key_id = none ∧
    (Caveat.mk [97] none (some [98])).is_first_party = false := by
  decide

/-- C5 amended: is_first_party returns true exactly when both
verification_key_id and location are absent; for caveats satisfying the
record invariant that verification_key_id and location are present together
(all caveats built by the two constructors satisfy it), this coincides with
verification_key_id being absent. -/
theorem C5_first_party_classification (c : Caveat) :
    (c.is_first_party = true ↔ c.verification_key_id = none ∧ c.location = none) ∧
    (c.verification_key_id.isSome = c.location.isSome →
      (c.is_first_party = true ↔ c.verification_key_id = none)) := by
  obtain ⟨cid, vk, loc⟩ := c
  cases vk <;> cases loc <;>
    simp [Caveat.is_first_party]

/-- Concrete instantiation of the classification theorem at a constructor-built
caveat, discharging the invariant hypothesis. -/
theorem C5_first_party_classification_witness :
    (Caveat.first_party [97]).is_first_party = true ∧
    (Caveat.third_party [97] [98] [99]).is_first_party = false :=
  ⟨((C5_first_party_classification (Caveat.first_party [97])).2 (by decide)).mpr (by decide),
   by
     have h := ((C5_first_party_classification (Caveat.third_party [97] [98] [99])).2
       (by decide))
     simp only [Caveat.third_party] at h
     by_contra hc
     simp only [Bool.not_eq_false] at hc
     exact Option.some_ne_none [98] (h.mp hc)⟩

/-! ### Predicate language (predicate.rs) and the context verifier
(verifier.rs).  The parser is modelled over lists of characters: every
operator is ASCII, and in UTF-8 an ASCII byte only ever occurs as a
standalone character, so byte positions and character positions of operator
occurrences agree. -/

/-- predicate.rs Operator. -/
inductive Operator where
| Equal
| NotEqual
| LessThan
| GreaterThan
| LessThanOrEqual
| GreaterThanOrEqual
deriving DecidableEq

/-- Rust str::trim on both ends (whitespace per Char.isWhitespace). -/
def trimChars (s : List Char) : List Char :=
  ((s.dropWhile Char.isWhitespace).reverse.dropWhile Char.isWhitespace).reverse

/-- predicate.rs Operator::parse: trim, then match the exact operator text. -/
def Operator.parse (s : List Char) : Option Operator :=
  if trimChars s = ['='] then some .Equal
  else if trimChars s = ['!', '='] then some .NotEqual
  else if trimChars s = ['<'] then some .LessThan
  else if trimChars s = ['>'] then some .GreaterThan
  else if trimChars s = ['<', '='] then some .LessThanOrEqual
  else if trimChars s = ['>', '='] then some .GreaterThanOrEqual
  else none

/-- predicate.rs Predicate: key, operator and value of a parsed predicate. -/
structure Predicate where
  key : List Char
  operator : Operator
  value : List Char
deriving DecidableEq

/-- Rust str::find with a string pattern: the leftmost character index at
which the pattern occurs, if any. -/
def strFind : List Char → List Char → Option Nat
| [], pat => if pat.isEmpty then some 0 else none
| c :: rest, pat =>
  if pat.isPrefixOf (c :: rest) then some 0
  else (strFind rest pat).map (fun n => n + 1)

/-- The operator table of Predicate::parse, in source order: two-character
operators come before their one-character counterparts. -/
def operatorTable : List (List Char) :=
  [['<', '='], ['>', '='], ['!', '='], ['='], ['<'], ['>']]

/-- Payload of the no-operator InvalidFormat error of Predicate::parse. -/
def noOperatorMessage (s : List Char) : Bytes :=
  litBytes "No operator found in predicate: " ++ s.map Char.toNat

/-- Payload of the empty-key-or-value InvalidFormat error of Predicate::parse. -/
def invalidPredicateMessage (s : List Char) : Bytes :=
  litBytes "Invalid predicate format: " ++ s.map Char.toNat

/-- Payload of the unknown-operator InvalidFormat error of Predicate::parse. -/
def unknownOperatorMessage (op : List Char) : Bytes :=
  litBytes "Unknown operator: " ++ op.map Char.toNat

/-- The body of the operator loop in Predicate::parse once an operator
occurrence is found at position pos: trim the text on both sides, reject an
empty key or value, and parse the operator text. -/
def splitAtOperator (s op : List Char) (pos : Nat) : Except StroopwafelError Predicate :=
  let key := trimChars (s.take pos)
  let value := trimChars (s.drop (pos + op.length))
  if key = [] ∨ value = [] then .error (.InvalidFormat (invalidPredicateMessage s))
  else
    match Operator.parse op with
    | some operator => .ok ⟨key, operator, value⟩
    | none => .error (.InvalidFormat (unknownOperatorMessage op))

/-- The operator loop of Predicate::parse: try each operator of the table in
order and split at the first table operator that occurs anywhere in the
input (at that operator's leftmost occurrence). -/
def parseLoop (s : List Char) : List (List Char) → Except StroopwafelError Predicate
| [] => .error (.InvalidFormat (noOperatorMessage s))
| op :: ops =>
  match strFind s op with
  | some pos => splitAtOperator s op pos
  | none => parseLoop s ops

/-- predicate.rs Predicate::parse. -/
def Predicate.parse (s : List Char) : Except StroopwafelError Predicate :=
  parseLoop s operatorTable

/-- Modelled from the spec: the parse rule the spec describes, splitting at
the leftmost occurrence in the input of any operator substring, with
two-character operators taking priority over their one-character counterparts
at the same position (table order is tried at each position).  Defined only to
compare against Predicate.parse. -/
def leftmostOperator : List Char → Option (Nat × List Char)
| [] => none
| c :: rest =>
  match operatorTable.find? (fun op => op.isPrefixOf (c :: rest)) with
  | some op => some (0, op)
  | none => (leftmostOperator rest).map (fun pr => (pr.1 + 1, pr.2))

/-- Modelled from the spec: parse by splitting at the leftmost occurrence of
any operator (see leftmostOperator). -/
def parseLeftmostAnyOperator (s : List Char) : Except StroopwafelError Predicate :=
  match leftmostOperator s with
  | none => .error (.InvalidFormat (noOperatorMessage s))
  | some (pos, op) => splitAtOperator s op pos

/-- Counterexample to C4 as stated: on the input a < b = c the code splits at
the equals sign (the first operator in table order that occurs anywhere),
while the leftmost occurrence of any operator is the less-than sign, so the
spec-described rule produces a different predicate. -/
theorem C4_counterexample :
    Predicate.parse ['a', ' ', '<', ' ', 'b', ' ', '=', ' ', 'c']
        = .ok ⟨['a', ' ', '<', ' ', 'b'], .Equal, ['c']⟩ ∧
    parseLeftmostAnyOperator ['a', ' ', '<', ' ', 'b', ' ', '=', ' ', 'c']
        = .ok ⟨['a'], .LessThan, ['b', ' ', '=', ' ', 'c']⟩ ∧
    Predicate.parse ['a', ' ', '<', ' ', 'b', ' ', '=', ' ', 'c']
        ≠ parseLeftmostAnyOperator ['a', ' ', '<', ' ', 'b', ' ', '=', ' ', 'c'] := by
  decide

/-- The operator loop equals a first-match search over the table. -/
theorem parseLoop_eq_table_find (s : List Char) :
    ∀ table : List (List Char),
      parseLoop s table
        = match table.find? (fun op => (strFind s op).isSome) with
          | none => .error (.InvalidFormat (noOperatorMessage s))
          | some op => splitAtOperator s op ((strFind s op).getD 0) := by
  intro table
  induction table with
  | nil => rfl
  | cons op ops ih =>
    cases h : strFind s op with
    | none => simp [parseLoop, List.find?, h, ih]
    | some pos => simp [parseLoop, List.find?, h]

/-- C4 amended: Predicate::parse scans the operator table in source order and
splits at the leftmost occurrence of the first table operator that occurs
anywhere in the input; the key is the trimmed text before that occurrence and
the value the trimmed text after it.  Because the two-character operators
precede their one-character counterparts in the table, x <= 5 still parses as
less-than-or-equal. -/
theorem C4_first_table_operator_wins (s : List Char) :
    (Predicate.parse s
      = match operatorTable.find? (fun op => (strFind s op).isSome) with
        | none => .error (.InvalidFormat (noOperatorMessage s))
        | some op => splitAtOperator s op ((strFind s op).getD 0)) ∧
    Predicate.parse ['x', ' ', '<', '=', ' ', '5']
      = .ok ⟨['x'], .LessThanOrEqual, ['5']⟩ :=
  ⟨parseLoop_eq_table_find s operatorTable, by decide⟩

/-- Validating UTF-8 decoder (std::str::from_utf8): rejects invalid lead and
continuation bytes, overlong encodings, surrogates and code points above
0x10FFFF. -/
def utf8Decode : List Nat → Option (List Char)
| [] => some []
| b :: rest =>
  if b < 0x80 then
    (utf8Decode rest).map (fun cs => Char.ofNat b :: cs)
  else if b < 0xC2 then none
  else if b < 0xE0 then
    match rest with
    | b1 :: rest1 =>
      if 0x80 ≤ b1 ∧ b1 < 0xC0 then
        (utf8Decode rest1).map (fun cs =>
          Char.ofNat ((b - 0xC0) * 64 + (b1 - 0x80)) :: cs)
      else none
    | [] => none
  else if b < 0xF0 then
    match rest with
    | b1 :: b2 :: rest2 =>
      if (if b = 0xE0 then 0xA0 ≤ b1 ∧ b1 < 0xC0
          else if b = 0xED then 0x80 ≤ b1 ∧ b1 < 0xA0
          else 0x80 ≤ b1 ∧ b1 < 0xC0) ∧ 0x80 ≤ b2 ∧ b2 < 0xC0 then
        (utf8Decode rest2).map (fun cs =>
          Char.ofNat ((b - 0xE0) * 4096 + (b1 - 0x80) * 64 + (b2 - 0x80)) :: cs)
      else none
    | _ => none
  else if b < 0xF5 then
    match rest with
    | b1 :: b2 :: b3 :: rest3 =>
      if (if b = 0xF0 then 0x90 ≤ b1 ∧ b1 < 0xC0
          else if b = 0xF4 then 0x80 ≤ b1 ∧ b1 < 0x90
          else 0x80 ≤ b1 ∧ b1 < 0xC0) ∧
          0x80 ≤ b2 ∧ b2 < 0xC0 ∧ 0x80 ≤ b3 ∧ b3 < 0xC0 then
        (utf8Decode rest3).map (fun cs =>
          Char.ofNat ((b - 0xF0) * 262144 + (b1 - 0x80) * 4096
            + (b2 - 0x80) * 64 + (b3 - 0x80)) :: cs)
      else none
    | _ => none
  else none

/-- Payload of the InvalidFormat error for non-UTF-8 predicate bytes in
ContextVerifier::verify_caveat (the Utf8Error display text is abstracted to a
fixed marker). -/
def utf8ErrorMessage : Bytes := litBytes "invalid utf-8 sequence"

/-- Payload of the CaveatViolation raised when a parsed predicate evaluates to
false in ContextVerifier::verify_caveat. -/
def predicateFailedMessage (s : List Char) : Bytes :=
  litBytes "Predicate " ++ s.map Char.toNat ++ litBytes " failed"

/-- verifier.rs ContextVerifier::verify_caveat: decode the bytes as UTF-8,
parse the predicate, evaluate it against the context.  Predicate::evaluate
compares context values numerically via 64-bit floating point when both sides
parse as f64; floating point is outside the embedding, so the evaluation
outcome is the evalPred parameter. -/
def ContextVerifier.verify_caveat (evalPred : Predicate → Bool) (predicate_bytes : Bytes) :
    Except StroopwafelError Unit :=
  match utf8Decode predicate_bytes with
  | none => .error (.InvalidFormat utf8ErrorMessage)
  | some s =>
    match Predicate.parse s with
    | .error e => .error e
    | .ok p =>
      if evalPred p then .ok ()
      else .error (.CaveatViolation (predicateFailedMessage s))

/-- Every error produced by the predicate parser is an InvalidFormat. -/
theorem parseLoop_error_invalidFormat (s : List Char) :
    ∀ table : List (List Char), ∀ e : StroopwafelError,
      parseLoop s table = .error e → ∃ m, e = .InvalidFormat m := by
  intro table
  induction table with
  | nil =>
    intro e h
    injection h with h
    exact ⟨_, h.symm⟩
  | cons op ops ih =>
    intro e h
    unfold parseLoop at h
    cases hf : strFind s op with
    | none =>
      rw [hf] at h
      exact ih e h
    | some pos =>
      rw [hf] at h
      unfold splitAtOperator at h
      simp only at h
      split at h
      · injection h with h
        exact ⟨_, h.symm⟩
      · split at h
        · cases h
        · injection h with h
          exact ⟨_, h.symm⟩

/-- C6 amended: non-UTF-8 predicate bytes make ContextVerifier::verify_caveat
return InvalidFormat, and valid UTF-8 bytes whose text does not parse as a
predicate also return InvalidFormat (the parse error is propagated unchanged,
and every parse error is InvalidFormat); a CaveatViolation arises only from a
predicate that parses and evaluates to false. -/
theorem C6_context_verifier_error_kinds (evalPred : Predicate → Bool) (bytes : Bytes) :
    (utf8Decode bytes = none →
      ContextVerifier.verify_caveat evalPred bytes = .error (.InvalidFormat utf8ErrorMessage)) ∧
    (∀ s : List Char, utf8Decode bytes = some s →
      ∀ e : StroopwafelError, Predicate.parse s = .error e →
        ContextVerifier.verify_caveat evalPred bytes = .error e ∧
          ∃ m, e = .InvalidFormat m) := by
  constructor
  · intro h
    unfold ContextVerifier.verify_caveat
    rw [h]
  · intro s hs e he
    constructor
    · unfold ContextVerifier.verify_caveat
      rw [hs]
      show (match Predicate.parse s with
        | .error e => .error e
        | .ok p => if evalPred p then .ok ()
            else .error (.CaveatViolation (predicateFailedMessage s))) = Except.error e
      rw [he]
    · exact parseLoop_error_invalidFormat s operatorTable e he

/-- Concrete instantiation of the error-kind theorem: an invalid UTF-8 byte
and a well-formed text with no operator, both yielding InvalidFormat. -/
theorem C6_context_verifier_error_kinds_witness :
    (ContextVerifier.verify_caveat (fun _ => true) [255]
      = .error (.InvalidFormat utf8ErrorMessage)) ∧
    (ContextVerifier.verify_caveat (fun _ => true) (litBytes "just some text")
        = .error (.InvalidFormat (noOperatorMessage ("just some text").data)) ∧
      ∃ m, (.InvalidFormat (noOperatorMessage ("just some text").data) : StroopwafelError)
        = .InvalidFormat m) :=
  ⟨(C6_context_verifier_error_kinds (fun _ => true) [255]).1 (by decide),
   (C6_context_verifier_error_kinds (fun _ => true) (litBytes "just some text")).2
     ("just some text").data (by decide) _ (by decide)⟩

/-- The result is an error of the CaveatViolation kind. -/
def resultIsCaveatViolation : Except StroopwafelError Unit → Bool
| .error (.CaveatViolation _) => true
| _ => false

/-- The result is an error of any kind. -/
def resultIsError : Except StroopwafelError Unit → Bool
| .error _ => true
| _ => false

/-- Counterexample to C6 as stated: the bytes of the text just some text are
valid UTF-8 and do not parse as a predicate, and verify_caveat returns an
error that is not a CaveatViolation (it is the InvalidFormat propagated from
the parser). -/
theorem C6_counterexample :
    (utf8Decode (litBytes "just some text")).isSome = true ∧
    resultIsError (ContextVerifier.verify_caveat (fun _ => true)
      (litBytes "just some text")) = true ∧
    resultIsCaveatViolation (ContextVerifier.verify_caveat (fun _ => true)
      (litBytes "just some text")) = false := by
  decide

/-! ### Codecs (serialization.rs).  The byte formats come from external crates
(rmp_serde, serde_json, base64, hex); they are modelled from the spec,
section 4.6: a MessagePack record in the declared field order with nil/str for
optional strings and bin for binary fields, a JSON object with base64-encoded
binary fields, URL-safe unpadded base64 over the MessagePack bytes, and
lowercase hexadecimal over the MessagePack bytes. -/

/-- Big-endian two-byte encoding of a length. -/
def beBytes2 (n : Nat) : Bytes := [n / 256 % 256, n % 256]

/-- Big-endian four-byte encoding of a length. -/
def beBytes4 (n : Nat) : Bytes :=
  [n / 16777216 % 256, n / 65536 % 256, n / 256 % 256, n % 256]

/-- MessagePack str header (fixstr, str 8, str 16, str 32). -/
def strHeader (len : Nat) : Option Bytes :=
  if len < 32 then some [0xA0 + len]
  else if len < 256 then some [0xD9, len]
  else if len < 65536 then some (0xDA :: beBytes2 len)
  else if len < 4294967296 then some (0xDB :: beBytes4 len)
  else none

/-- MessagePack bin header (bin 8, bin 16, bin 32). -/
def binHeader (len : Nat) : Option Bytes :=
  if len < 256 then some [0xC4, len]
  else if len < 65536 then some (0xC5 :: beBytes2 len)
  else if len < 4294967296 then some (0xC6 :: beBytes4 len)
  else none

/-- MessagePack array header (fixarray, array 16, array 32). -/
def arrayHeader (len : Nat) : Option Bytes :=
  if len < 16 then some [0x90 + len]
  else if len < 65536 then some (0xDC :: beBytes2 len)
  else if len < 4294967296 then some (0xDD :: beBytes4 len)
  else none

/-- Encode a byte string as MessagePack bin. -/
def encBin (b : Bytes) : Option Bytes :=
  (binHeader b.length).map (fun h => h ++ b)

/-- Encode a string (its UTF-8 bytes) as MessagePack str. -/
def encStr (s : Bytes) : Option Bytes :=
  (strHeader s.length).map (fun h => h ++ s)

/-- Encode an optional string as MessagePack nil or str. -/
def encOptStr : Option Bytes → Option Bytes
| none => some [0xC0]
| some s => encStr s

/-- Encode an optional byte string as MessagePack nil or bin. -/
def encOptBin : Option Bytes → Option Bytes
| none => some [0xC0]
| some b => encBin b

/-- Encode a caveat as a three-element MessagePack array. -/
def encCaveat (c : Caveat) : Option Bytes :=
  match encBin c.caveat_id, encOptBin c.verification_key_id, encOptStr c.location with
  | some a, some b, some d => some (0x93 :: (a ++ b ++ d))
  | _, _, _ => none

/-- Encode a caveat list body (headerless concatenation). -/
def encCaveatList : List Caveat → Option Bytes
| [] => some []
| c :: cs =>
  match encCaveat c, encCaveatList cs with
  | some a, some b => some (a ++ b)
  | _, _ => none

/-- Payload of the encoder-failure DeserializationError. -/
def msgpackEncodeMessage : Bytes := litBytes "msgpack encoding failed"

/-- serialization.rs Stroopwafel::to_msgpack: a four-element array in the
declared field order. -/
def Stroopwafel.to_msgpack (s : Stroopwafel) : Except StroopwafelError Bytes :=
  match encOptStr s.location, encBin s.identifier, arrayHeader s.caveats.length,
      encCaveatList s.caveats, encBin s.signature with
  | some l, some i, some ah, some cb, some sg =>
    .ok (0x94 :: (l ++ i ++ ah ++ cb ++ sg))
  | _, _, _, _, _ => .error (.DeserializationError msgpackEncodeMessage)

/-- Read exactly n bytes. -/
def readN (n : Nat) (l : Bytes) : Option (Bytes × Bytes) :=
  if n ≤ l.length then some (l.take n, l.drop n) else none

/-- Big-endian value of two bytes. -/
def deBE2 (a b : Nat) : Nat := a * 256 + b

/-- Big-endian value of four bytes. -/
def deBE4 (a b c d : Nat) : Nat := ((a * 256 + b) * 256 + c) * 256 + d

/-- Parse a MessagePack str. -/
def parseStr : Bytes → Option (Bytes × Bytes)
| [] => none
| b :: r =>
  if 0xA0 ≤ b ∧ b ≤ 0xBF then readN (b - 0xA0) r
  else if b = 0xD9 then
    match r with
    | l1 :: r1 => readN l1 r1
    | [] => none
  else if b = 0xDA then
    match r with
    | l1 :: l2 :: r2 => readN (deBE2 l1 l2) r2
    | _ => none
  else if b = 0xDB then
    match r with
    | l1 :: l2 :: l3 :: l4 :: r4 => readN (deBE4 l1 l2 l3 l4) r4
    | _ => none
  else none

/-- Parse a MessagePack bin. -/
def parseBin : Bytes → Option (Bytes × Bytes)
| [] => none
| b :: r =>
  if b = 0xC4 then
    match r with
    | l1 :: r1 => readN l1 r1
    | [] => none
  else if b = 0xC5 then
    match r with
    | l1 :: l2 :: r2 => readN (deBE2 l1 l2) r2
    | _ => none
  else if b = 0xC6 then
    match r with
    | l1 :: l2 :: l3 :: l4 :: r4 => readN (deBE4 l1 l2 l3 l4) r4
    | _ => none
  else none

/-- Parse MessagePack nil or str. -/
def parseOptStr : Bytes → Option (Option Bytes × Bytes)
| [] => none
| b :: r =>
  if b = 0xC0 then some (none, r)
  else (parseStr (b :: r)).map (fun pr => (some pr.1, pr.2))

/-- Parse MessagePack nil or bin. -/
def parseOptBin : Bytes → Option (Option Bytes × Bytes)
| [] => none
| b :: r =>
  if b = 0xC0 then some (none, r)
  else (parseBin (b :: r)).map (fun pr => (some pr.1, pr.2))

/-- Parse a MessagePack array header, returning the element count. -/
def parseArrayHeader : Bytes → Option (Nat × Bytes)
| [] => none
| b :: r =>
  if 0x90 ≤ b ∧ b ≤ 0x9F then some (b - 0x90, r)
  else if b = 0xDC then
    match r with
    | l1 :: l2 :: r2 => some (deBE2 l1 l2, r2)
    | _ => none
  else if b = 0xDD then
    match r with
    | l1 :: l2 :: l3 :: l4 :: r4 => some (deBE4 l1 l2 l3 l4, r4)
    | _ => none
  else none

/-- Parse one caveat (three-element array). -/
def parseCaveat (l : Bytes) : Option (Caveat × Bytes) :=
  match l with
  | b :: r =>
    if b = 0x93 then
      match parseBin r with
      | some (cid, r1) =>
        match parseOptBin r1 with
        | some (vk, r2) =>
          match parseOptStr r2 with
          | some (loc, r3) => some (⟨cid, vk, loc⟩, r3)
          | none => none
        | none => none
      | none => none
    else none
  | [] => none

/-- Parse n caveats in sequence. -/
def parseCaveatList : Nat → Bytes → Option (List Caveat × Bytes)
| 0, l => some ([], l)
| n + 1, l =>
  match parseCaveat l with
  | some (c, r) =>
    match parseCaveatList n r with
    | some (cs, r2) => some (c :: cs, r2)
    | none => none
  | none => none

/-- Parse a token (four-element array; the signature must be 32 bytes). -/
def parseToken (l : Bytes) : Option (Stroopwafel × Bytes) :=
  match l with
  | b :: r =>
    if b = 0x94 then
      match parseOptStr r with
      | some (loc, r1) =>
        match parseBin r1 with
        | some (ident, r2) =>
          match parseArrayHeader r2 with
          | some (n, r3) =>
            match parseCaveatList n r3 with
            | some (cavs, r4) =>
              match parseBin r4 with
              | some (sig, r5) =>
                if sig.length = 32 then some (⟨loc, ident, cavs, sig⟩, r5) else none
              | none => none
            | none => none
          | none => none
        | none => none
      | none => none
    else none
  | [] => none

/-- Payload of the decoder-failure DeserializationError. -/
def msgpackDecodeMessage : Bytes := litBytes "invalid msgpack"

/-- serialization.rs Stroopwafel::from_msgpack. -/
def Stroopwafel.from_msgpack (l : Bytes) : Except StroopwafelError Stroopwafel :=
  match parseToken l with
  | some (t, []) => .ok t
  | _ => .error (.DeserializationError msgpackDecodeMessage)

/-- URL-safe base64 alphabet (RFC 4648 section 5), value to byte. -/
def sextetChar (v : Nat) : Nat :=
  if v < 26 then 65 + v
  else if v < 52 then 97 + (v - 26)
  else if v < 62 then 48 + (v - 52)
  else if v = 62 then 45
  else 95

/-- URL-safe base64 alphabet, byte to value. -/
def sextetVal (c : Nat) : Option Nat :=
  if 65 ≤ c ∧ c ≤ 90 then some (c - 65)
  else if 97 ≤ c ∧ c ≤ 122 then some (c - 97 + 26)
  else if 48 ≤ c ∧ c ≤ 57 then some (c - 48 + 52)
  else if c = 45 then some 62
  else if c = 95 then some 63
  else none

/-- Unpadded base64 encoding (three bytes to four characters, with two- and
three-character tails). -/
def b64encode : Bytes → Bytes
| a :: b :: c :: rest =>
  sextetChar (a / 4) :: sextetChar ((a % 4) * 16 + b / 16) ::
    sextetChar ((b % 16) * 4 + c / 64) :: sextetChar (c % 64) :: b64encode rest
| [a, b] =>
  [sextetChar (a / 4), sextetChar ((a % 4) * 16 + b / 16), sextetChar ((b % 16) * 4)]
| [a] =>
  [sextetChar (a / 4), sextetChar ((a % 4) * 16)]
| [] => []

/-- Unpadded base64 decoding. -/
def b64decode : Bytes → Option Bytes
| c1 :: c2 :: c3 :: c4 :: rest =>
  match sextetVal c1, sextetVal c2, sextetVal c3, sextetVal c4 with
  | some s1, some s2, some s3, some s4 =>
    (b64decode rest).map (fun bs =>
      (s1 * 4 + s2 / 16) :: ((s2 % 16) * 16 + s3 / 4) :: ((s3 % 4) * 64 + s4) :: bs)
  | _, _, _, _ => none
| [c1, c2, c3] =>
  match sextetVal c1, sextetVal c2, sextetVal c3 with
  | some s1, some s2, some s3 => some [s1 * 4 + s2 / 16, (s2 % 16) * 16 + s3 / 4]
  | _, _, _ => none
| [c1, c2] =>
  match sextetVal c1, sextetVal c2 with
  | some s1, some s2 => some [s1 * 4 + s2 / 16]
  | _, _ => none
| [_] => none
| [] => some []

/-- serialization.rs Stroopwafel::to_base64: base64 over the MessagePack bytes. -/
def Stroopwafel.to_base64 (s : Stroopwafel) : Except StroopwafelError Bytes :=
  (s.to_msgpack).map b64encode

/-- Payload of the invalid-base64 DeserializationError. -/
def base64DecodeMessage : Bytes := litBytes "invalid base64"

/-- serialization.rs Stroopwafel::from_base64. -/
def Stroopwafel.from_base64 (l : Bytes) : Except StroopwafelError Stroopwafel :=
  match b64decode l with
  | none => .error (.DeserializationError base64DecodeMessage)
  | some bytes => Stroopwafel.from_msgpack bytes

/-- Lowercase hex digit, value to byte. -/
def hexDigitChar (n : Nat) : Nat :=
  if n < 10 then 48 + n else 87 + n

/-- Hex digit, byte to value (lowercase). -/
def hexDigitVal (c : Nat) : Option Nat :=
  if 48 ≤ c ∧ c ≤ 57 then some (c - 48)
  else if 97 ≤ c ∧ c ≤ 102 then some (c - 97 + 10)
  else none

/-- Lowercase hex encoding, two characters per byte. -/
def hexEncode : Bytes → Bytes
| [] => []
| b :: rest => hexDigitChar (b / 16) :: hexDigitChar (b % 16) :: hexEncode rest

/-- Hex decoding. -/
def hexDecode : Bytes → Option Bytes
| [] => some []
| c1 :: c2 :: rest =>
  match hexDigitVal c1, hexDigitVal c2 with
  | some h1, some h2 => (hexDecode rest).map (fun bs => (h1 * 16 + h2) :: bs)
  | _, _ => none
| [_] => none

/-- serialization.rs Stroopwafel::to_hex: hex over the MessagePack bytes. -/
def Stroopwafel.to_hex (s : Stroopwafel) : Except StroopwafelError Bytes :=
  (s.to_msgpack).map hexEncode

/-- Payload of the invalid-hex DeserializationError. -/
def hexDecodeMessage : Bytes := litBytes "invalid hex"

/-- serialization.rs Stroopwafel::from_hex. -/
def Stroopwafel.from_hex (l : Bytes) : Except StroopwafelError Stroopwafel :=
  match hexDecode l with
  | none => .error (.DeserializationError hexDecodeMessage)
  | some bytes => Stroopwafel.from_msgpack bytes

/-! ### Round-trip lemmas for the MessagePack layer -/

/-- All bytes of the list are below 256. -/
def bytesOK (l : Bytes) : Prop := ∀ b ∈ l, b < 256

instance (l : Bytes) : Decidable (bytesOK l) := List.decidableBAll _ l

/-- A byte-string field that the codecs can carry. -/
def fieldOK (l : Bytes) : Prop := bytesOK l ∧ l.length < 4294967296

instance (l : Bytes) : Decidable (fieldOK l) := instDecidableAnd

/-- An optional byte-string field that the codecs can carry. -/
def optFieldOK (o : Option Bytes) : Prop :=
  bytesOK (o.getD []) ∧ (o.getD []).length < 4294967296

instance (o : Option Bytes) : Decidable (optFieldOK o) := instDecidableAnd

/-- Codec-relevant well-formedness of a caveat. -/
def Caveat.wf (c : Caveat) : Prop :=
  fieldOK c.caveat_id ∧ optFieldOK c.verification_key_id ∧ optFieldOK c.location

instance (c : Caveat) : Decidable c.wf := instDecidableAnd

/-- Codec-relevant well-formedness of a token: byte-valued fields, encodable
lengths, and a 32-byte signature. -/
def Stroopwafel.wf (s : Stroopwafel) : Prop :=
  optFieldOK s.location ∧ fieldOK s.identifier ∧ s.caveats.length < 4294967296 ∧
  (∀ c ∈ s.caveats, c.wf) ∧ bytesOK s.signature ∧ s.signature.length = 32

instance (s : Stroopwafel) : Decidable s.wf := instDecidableAnd

theorem take_append_exact {α : Type} (a rest : List α) : (a ++ rest).take a.length = a := by
  induction a with
  | nil => rfl
  | cons x t ih => simp [ih]

theorem drop_append_exact {α : Type} (a rest : List α) : (a ++ rest).drop a.length = rest := by
  induction a with
  | nil => rfl
  | cons x t ih => simp [ih]

theorem readN_append (a rest : Bytes) : readN a.length (a ++ rest) = some (a, rest) := by
  unfold readN
  rw [if_pos (by simp), take_append_exact, drop_append_exact]

theorem encStr_parses (s : Bytes) (hb : bytesOK s) (hlen : s.length < 4294967296) :
    ∃ b0 t, encStr s = some (b0 :: t) ∧ b0 ≠ 0xC0 ∧ bytesOK (b0 :: t) ∧
      ∀ rest, parseStr ((b0 :: t) ++ rest) = some (s, rest) := by
  by_cases h1 : s.length < 32
  · refine ⟨0xA0 + s.length, s, ?_, by omega, ?_, ?_⟩
    · unfold encStr strHeader
      rw [if_pos h1]
      rfl
    · intro x hx
      rcases List.mem_cons.mp hx with h | h
      · omega
      · exact hb x h
    · intro rest
      show parseStr ((0xA0 + s.length) :: (s ++ rest)) = some (s, rest)
      simp only [parseStr]
      rw [if_pos (by omega)]
      have h2 : 0xA0 + s.length - 0xA0 = s.length := by omega
      rw [h2, readN_append]
  · by_cases h2 : s.length < 256
    · refine ⟨0xD9, s.length :: s, ?_, by omega, ?_, ?_⟩
      · unfold encStr strHeader
        rw [if_neg h1, if_pos h2]
        rfl
      · intro x hx
        rcases List.mem_cons.mp hx with h | h
        · omega
        · rcases List.mem_cons.mp h with h | h
          · omega
          · exact hb x h
      · intro rest
        show parseStr (0xD9 :: (s.length :: (s ++ rest))) = some (s, rest)
        simp only [parseStr]
        rw [if_neg (by decide), if_pos (by trivial)]
        show readN s.length (s ++ rest) = some (s, rest)
        exact readN_append s rest
    · by_cases h3 : s.length < 65536
      · refine ⟨0xDA, s.length / 256 % 256 :: s.length % 256 :: s, ?_, by omega, ?_, ?_⟩
        · unfold encStr strHeader
          rw [if_neg h1, if_neg h2, if_pos h3]
          rfl
        · intro x hx
          rcases List.mem_cons.mp hx with h | h
          · omega
          · rcases List.mem_cons.mp h with h | h
            · omega
            · rcases List.mem_cons.mp h with h | h
              · omega
              · exact hb x h
        · intro rest
          show parseStr (0xDA :: (s.length / 256 % 256 :: (s.length % 256 :: (s ++ rest))))
            = some (s, rest)
          simp only [parseStr]
          rw [if_neg (by decide), if_neg (by decide), if_pos (by trivial)]
          show readN (deBE2 (s.length / 256 % 256) (s.length % 256)) (s ++ rest) = some (s, rest)
          have h4 : deBE2 (s.length / 256 % 256) (s.length % 256) = s.length := by
            unfold deBE2
            omega
          rw [h4, readN_append]
      · refine ⟨0xDB, s.length / 16777216 % 256 :: s.length / 65536 % 256 ::
          s.length / 256 % 256 :: s.length % 256 :: s, ?_, by omega, ?_, ?_⟩
        · unfold encStr strHeader
          rw [if_neg h1, if_neg h2, if_neg h3, if_pos hlen]
          rfl
        · intro x hx
          rcases List.mem_cons.mp hx with h | h
          · omega
          · rcases List.mem_cons.mp h with h | h
            · omega
            · rcases List.mem_cons.mp h with h | h
              · omega
              · rcases List.mem_cons.mp h with h | h
                · omega
                · rcases List.mem_cons.mp h with h | h
                  · omega
                  · exact hb x h
        · intro rest
          show parseStr (0xDB :: (s.length / 16777216 % 256 :: (s.length / 65536 % 256 ::
              (s.length / 256 % 256 :: (s.length % 256 :: (s ++ rest)))))) = some (s, rest)
          simp only [parseStr]
          rw [if_neg (by decide), if_neg (by decide), if_neg (by decide), if_pos (by trivial)]
          show readN (deBE4 (s.length / 16777216 % 256) (s.length / 65536 % 256)
            (s.length / 256 % 256) (s.length % 256)) (s ++ rest) = some (s, rest)
          have h4 : deBE4 (s.length / 16777216 % 256) (s.length / 65536 % 256)
              (s.length / 256 % 256) (s.length % 256) = s.length := by
            unfold deBE4
            omega
          rw [h4, readN_append]

theorem encBin_parses (s : Bytes) (hb : bytesOK s) (hlen : s.length < 4294967296) :
    ∃ b0 t, encBin s = some (b0 :: t) ∧ b0 ≠ 0xC0 ∧ bytesOK (b0 :: t) ∧
      ∀ rest, parseBin ((b0 :: t) ++ rest) = some (s, rest) := by
  by_cases h1 : s.length < 256
  · refine ⟨0xC4, s.length :: s, ?_, by omega, ?_, ?_⟩
    · unfold encBin binHeader
      rw [if_pos h1]
      rfl
    · intro x hx
      rcases List.mem_cons.mp hx with h | h
      · omega
      · rcases List.mem_cons.mp h with h | h
        · omega
        · exact hb x h
    · intro rest
      show parseBin (0xC4 :: (s.length :: (s ++ rest))) = some (s, rest)
      simp only [parseBin]
      rw [if_pos (by trivial)]
      show readN s.length (s ++ rest) = some (s, rest)
      exact readN_append s rest
  · by_cases h2 : s.length < 65536
    · refine ⟨0xC5, s.length / 256 % 256 :: s.length % 256 :: s, ?_, by omega, ?_, ?_⟩
      · unfold encBin binHeader
        rw [if_neg h1, if_pos h2]
        rfl
      · intro x hx
        rcases List.mem_cons.mp hx with h | h
        · omega
        · rcases List.mem_cons.mp h with h | h
          · omega
          · rcases List.mem_cons.mp h with h | h
            · omega
            · exact hb x h
      · intro rest
        show parseBin (0xC5 :: (s.length / 256 % 256 :: (s.length % 256 :: (s ++ rest))))
          = some (s, rest)
        simp only [parseBin]
        rw [if_neg (by decide), if_pos (by trivial)]
        show readN (deBE2 (s.length / 256 % 256) (s.length % 256)) (s ++ rest) = some (s, rest)
        have h4 : deBE2 (s.length / 256 % 256) (s.length % 256) = s.length := by
          unfold deBE2
          omega
        rw [h4, readN_append]
    · refine ⟨0xC6, s.length / 16777216 % 256 :: s.length / 65536 % 256 ::
        s.length / 256 % 256 :: s.length % 256 :: s, ?_, by omega, ?_, ?_⟩
      · unfold encBin binHeader
        rw [if_neg h1, if_neg h2, if_pos hlen]
        rfl
      · intro x hx
        rcases List.mem_cons.mp hx with h | h
        · omega
        · rcases List.mem_cons.mp h with h | h
          · omega
          · rcases List.mem_cons.mp h with h | h
            · omega
            · rcases List.mem_cons.mp h with h | h
              · omega
              · rcases List.mem_cons.mp h with h | h
                · omega
                · exact hb x h
      · intro rest
        show parseBin (0xC6 :: (s.length / 16777216 % 256 :: (s.length / 65536 % 256 ::
            (s.length / 256 % 256 :: (s.length % 256 :: (s ++ rest)))))) = some (s, rest)
        simp only [parseBin]
        rw [if_neg (by decide), if_neg (by decide), if_pos (by trivial)]
        show readN (deBE4 (s.length / 16777216 % 256) (s.length / 65536 % 256)
          (s.length / 256 % 256) (s.length % 256)) (s ++ rest) = some (s, rest)
        have h4 : deBE4 (s.length / 16777216 % 256) (s.length / 65536 % 256)
            (s.length / 256 % 256) (s.length % 256) = s.length := by
          unfold deBE4
          omega
        rw [h4, readN_append]

theorem arrayHeader_parses (n : Nat) (hlen : n < 4294967296) :
    ∃ e, arrayHeader n = some e ∧ bytesOK e ∧
      ∀ rest, parseArrayHeader (e ++ rest) = some (n, rest) := by
  by_cases h1 : n < 16
  · refine ⟨[0x90 + n], ?_, ?_, ?_⟩
    · unfold arrayHeader
      rw [if_pos h1]
    · intro x hx
      rcases List.mem_cons.mp hx with h | h
      · omega
      · cases h
    · intro rest
      show parseArrayHeader ((0x90 + n) :: rest) = some (n, rest)
      simp only [parseArrayHeader]
      rw [if_pos (by omega)]
      have h2 : 0x90 + n - 0x90 = n := by omega
      rw [h2]
  · by_cases h2 : n < 65536
    · refine ⟨0xDC :: n / 256 % 256 :: [n % 256], ?_, ?_, ?_⟩
      · unfold arrayHeader
        rw [if_neg h1, if_pos h2]
        rfl
      · intro x hx
        rcases List.mem_cons.mp hx with h | h
        · omega
        · rcases List.mem_cons.mp h with h | h
          · omega
          · rcases List.mem_cons.mp h with h | h
            · omega
            · cases h
      · intro rest
        show parseArrayHeader (0xDC :: (n / 256 % 256 :: (n % 256 :: rest))) = some (n, rest)
        simp only [parseArrayHeader]
        rw [if_neg (by decide), if_pos (by trivial)]
        show some (deBE2 (n / 256 % 256) (n % 256), rest) = some (n, rest)
        have h4 : deBE2 (n / 256 % 256) (n % 256) = n := by
          unfold deBE2
          omega
        rw [h4]
    · refine ⟨0xDD :: n / 16777216 % 256 :: n / 65536 % 256 ::
        n / 256 % 256 :: [n % 256], ?_, ?_, ?_⟩
      · unfold arrayHeader
        rw [if_neg h1, if_neg h2, if_pos hlen]
        rfl
      · intro x hx
        rcases List.mem_cons.mp hx with h | h
        · omega
        · rcases List.mem_cons.mp h with h | h
          · omega
          · rcases List.mem_cons.mp h with h | h
            · omega
            · rcases List.mem_cons.mp h with h | h
              · omega
              · rcases List.mem_cons.mp h with h | h
                · omega
                · cases h
      · intro rest
        show parseArrayHeader (0xDD :: (n / 16777216 % 256 :: (n / 65536 % 256 ::
            (n / 256 % 256 :: (n % 256 :: rest))))) = some (n, rest)
        simp only [parseArrayHeader]
        rw [if_neg (by decide), if_neg (by decide), if_pos (by trivial)]
        show some (deBE4 (n / 16777216 % 256) (n / 65536 % 256)
          (n / 256 % 256) (n % 256), rest) = some (n, rest)
        have h4 : deBE4 (n / 16777216 % 256) (n / 65536 % 256)
            (n / 256 % 256) (n % 256) = n := by
          unfold deBE4
          omega
        rw [h4]

theorem encOptStr_parses (o : Option Bytes) (h : optFieldOK o) :
    ∃ e, encOptStr o = some e ∧ bytesOK e ∧
      ∀ rest, parseOptStr (e ++ rest) = some (o, rest) := by
  cases o with
  | none =>
    refine ⟨[0xC0], rfl, ?_, ?_⟩
    · intro x hx
      rcases List.mem_cons.mp hx with h | h
      · omega
      · cases h
    · intro rest
      show parseOptStr (0xC0 :: rest) = some (none, rest)
      simp only [parseOptStr]
      rw [if_pos (by trivial)]
  | some s =>
    obtain ⟨b0, t, he, hb0, hok, hp⟩ := encStr_parses s h.1 h.2
    refine ⟨b0 :: t, he, hok, ?_⟩
    intro rest
    show parseOptStr (b0 :: (t ++ rest)) = some (some s, rest)
    simp only [parseOptStr]
    rw [if_neg hb0]
    have hp2 : parseStr (b0 :: (t ++ rest)) = some (s, rest) := hp rest
    rw [hp2]
    rfl

theorem encOptBin_parses (o : Option Bytes) (h : optFieldOK o) :
    ∃ e, encOptBin o = some e ∧ bytesOK e ∧
      ∀ rest, parseOptBin (e ++ rest) = some (o, rest) := by
  cases o with
  | none =>
    refine ⟨[0xC0], rfl, ?_, ?_⟩
    · intro x hx
      rcases List.mem_cons.mp hx with h | h
      · omega
      · cases h
    · intro rest
      show parseOptBin (0xC0 :: rest) = some (none, rest)
      simp only [parseOptBin]
      rw [if_pos (by trivial)]
  | some s =>
    obtain ⟨b0, t, he, hb0, hok, hp⟩ := encBin_parses s h.1 h.2
    refine ⟨b0 :: t, he, hok, ?_⟩
    intro rest
    show parseOptBin (b0 :: (t ++ rest)) = some (some s, rest)
    simp only [parseOptBin]
    rw [if_neg hb0]
    have hp2 : parseBin (b0 :: (t ++ rest)) = some (s, rest) := hp rest
    rw [hp2]
    rfl

theorem bytesOK_append {a b : Bytes} (ha : bytesOK a) (hb : bytesOK b) :
    bytesOK (a ++ b) := by
  intro x hx
  rcases List.mem_append.mp hx with h | h
  · exact ha x h
  · exact hb x h

theorem encCaveat_parses (c : Caveat) (h : c.wf) :
    ∃ e, encCaveat c = some e ∧ bytesOK e ∧
      ∀ rest, parseCaveat (e ++ rest) = some (c, rest) := by
  obtain ⟨hcid, hvk, hloc⟩ := h
  obtain ⟨b1, t1, he1, hb1, hok1, hp1⟩ := encBin_parses c.caveat_id hcid.1 hcid.2
  obtain ⟨e2, he2, hok2, hp2⟩ := encOptBin_parses c.verification_key_id hvk
  obtain ⟨e3, he3, hok3, hp3⟩ := encOptStr_parses c.location hloc
  refine ⟨0x93 :: ((b1 :: t1) ++ e2 ++ e3), ?_, ?_, ?_⟩
  · unfold encCaveat
    rw [he1, he2, he3]
  · intro x hx
    rcases List.mem_cons.mp hx with hx | hx
    · omega
    · exact bytesOK_append (bytesOK_append hok1 hok2) hok3 x hx
  · intro rest
    show parseCaveat (0x93 :: (((b1 :: t1) ++ e2 ++ e3) ++ rest)) = some (c, rest)
    simp only [parseCaveat]
    rw [if_pos (by trivial)]
    have hassoc : ((b1 :: t1) ++ e2 ++ e3) ++ rest = (b1 :: t1) ++ (e2 ++ (e3 ++ rest)) := by
      simp [List.append_assoc]
    rw [hassoc]
    simp only [hp1, hp2, hp3]

theorem encCaveatList_parses (cs : List Caveat) (h : ∀ c ∈ cs, c.wf) :
    ∃ e, encCaveatList cs = some e ∧ bytesOK e ∧
      ∀ rest, parseCaveatList cs.length (e ++ rest) = some (cs, rest) := by
  induction cs with
  | nil =>
    refine ⟨[], rfl, ?_, ?_⟩
    · intro x hx
      cases hx
    · intro rest
      rfl
  | cons c cs ih =>
    obtain ⟨ec, hec, hokc, hpc⟩ := encCaveat_parses c (h c (List.mem_cons_self c cs))
    obtain ⟨et, het, hokt, hpt⟩ := ih (fun c' hc' => h c' (List.mem_cons_of_mem c hc'))
    refine ⟨ec ++ et, ?_, bytesOK_append hokc hokt, ?_⟩
    · unfold encCaveatList
      rw [hec, het]
    · intro rest
      show parseCaveatList (cs.length + 1) ((ec ++ et) ++ rest) = some (c :: cs, rest)
      simp only [parseCaveatList]
      rw [List.append_assoc]
      simp only [hpc, hpt]

theorem to_msgpack_parses (s : Stroopwafel) (h : s.wf) :
    ∃ e, s.to_msgpack = .ok e ∧ bytesOK e ∧
      ∀ rest, parseToken (e ++ rest) = some (s, rest) := by
  obtain ⟨hloc, hid, hclen, hcwf, hsb, hslen⟩ := h
  obtain ⟨e1, he1, hok1, hp1⟩ := encOptStr_parses s.location hloc
  obtain ⟨b2, t2, he2, hb2, hok2, hp2⟩ := encBin_parses s.identifier hid.1 hid.2
  obtain ⟨e3, he3, hok3, hp3⟩ := arrayHeader_parses s.caveats.length hclen
  obtain ⟨e4, he4, hok4, hp4⟩ := encCaveatList_parses s.caveats hcwf
  obtain ⟨b5, t5, he5, hb5, hok5, hp5⟩ := encBin_parses s.signature hsb (by omega)
  refine ⟨0x94 :: (e1 ++ (b2 :: t2) ++ e3 ++ e4 ++ (b5 :: t5)), ?_, ?_, ?_⟩
  · unfold Stroopwafel.to_msgpack
    rw [he1, he2, he3, he4, he5]
  · intro x hx
    rcases List.mem_cons.mp hx with hx | hx
    · omega
    · exact bytesOK_append (bytesOK_append (bytesOK_append
        (bytesOK_append hok1 hok2) hok3) hok4) hok5 x hx
  · intro rest
    show parseToken (0x94 :: ((e1 ++ (b2 :: t2) ++ e3 ++ e4 ++ (b5 :: t5)) ++ rest))
      = some (s, rest)
    simp only [parseToken]
    rw [if_pos (by trivial)]
    have hassoc : (e1 ++ (b2 :: t2) ++ e3 ++ e4 ++ (b5 :: t5)) ++ rest
        = e1 ++ ((b2 :: t2) ++ (e3 ++ (e4 ++ ((b5 :: t5) ++ rest)))) := by
      simp [List.append_assoc]
    rw [hassoc]
    simp only [hp1, hp2, hp3, hp4, hp5]
    rw [if_pos hslen]

/-- MessagePack round trip: encoding succeeds on a well-formed token, the
encoded bytes are bytes, and decoding restores the token. -/
theorem msgpack_roundtrip (s : Stroopwafel) (h : s.wf) :
    ∃ e, s.to_msgpack = .ok e ∧ bytesOK e ∧ Stroopwafel.from_msgpack e = .ok s := by
  obtain ⟨e, he, hok, hp⟩ := to_msgpack_parses s h
  refine ⟨e, he, hok, ?_⟩
  unfold Stroopwafel.from_msgpack
  have hp2 : parseToken e = some (s, []) := by
    have := hp []
    rwa [List.append_nil] at this
  rw [hp2]

/-! ### Round-trip lemmas for base64 and hex -/

theorem sextet_roundtrip_fin : ∀ v : Fin 64, sextetVal (sextetChar v.val) = some v.val := by
  decide

theorem sextetVal_sextetChar (v : Nat) (h : v < 64) : sextetVal (sextetChar v) = some v :=
  sextet_roundtrip_fin ⟨v, h⟩

theorem b64_roundtrip (l : Bytes) (h : bytesOK l) : b64decode (b64encode l) = some l := by
  induction l using b64encode.induct with
  | case1 a b c rest ih =>
    have ha : a < 256 := h a (by simp)
    have hb2 : b < 256 := h b (by simp)
    have hc : c < 256 := h c (by simp)
    have e1 : sextetVal (sextetChar (a / 4)) = some (a / 4) :=
      sextetVal_sextetChar _ (by omega)
    have e2 : sextetVal (sextetChar (a % 4 * 16 + b / 16)) = some (a % 4 * 16 + b / 16) :=
      sextetVal_sextetChar _ (by omega)
    have e3 : sextetVal (sextetChar (b % 16 * 4 + c / 64)) = some (b % 16 * 4 + c / 64) :=
      sextetVal_sextetChar _ (by omega)
    have e4 : sextetVal (sextetChar (c % 64)) = some (c % 64) :=
      sextetVal_sextetChar _ (by omega)
    have eih : b64decode (b64encode rest) = some rest := by
      apply ih
      intro x hx
      exact h x (List.mem_cons_of_mem _ (List.mem_cons_of_mem _ (List.mem_cons_of_mem _ hx)))
    simp only [b64encode, b64decode, e1, e2, e3, e4, eih, Option.map_some']
    have f1 : a / 4 * 4 + (a % 4 * 16 + b / 16) / 16 = a := by omega
    have f2 : (a % 4 * 16 + b / 16) % 16 * 16 + (b % 16 * 4 + c / 64) / 4 = b := by omega
    have f3 : (b % 16 * 4 + c / 64) % 4 * 64 + c % 64 = c := by omega
    rw [f1, f2, f3]
  | case2 a b =>
    have ha : a < 256 := h a (by simp)
    have hb2 : b < 256 := h b (by simp)
    have e1 : sextetVal (sextetChar (a / 4)) = some (a / 4) :=
      sextetVal_sextetChar _ (by omega)
    have e2 : sextetVal (sextetChar (a % 4 * 16 + b / 16)) = some (a % 4 * 16 + b / 16) :=
      sextetVal_sextetChar _ (by omega)
    have e3 : sextetVal (sextetChar (b % 16 * 4)) = some (b % 16 * 4) :=
      sextetVal_sextetChar _ (by omega)
    simp only [b64encode, b64decode, e1, e2, e3]
    have f1 : a / 4 * 4 + (a % 4 * 16 + b / 16) / 16 = a := by omega
    have f2 : (a % 4 * 16 + b / 16) % 16 * 16 + b % 16 * 4 / 4 = b := by omega
    rw [f1, f2]
  | case3 a =>
    have ha : a < 256 := h a (by simp)
    have e1 : sextetVal (sextetChar (a / 4)) = some (a / 4) :=
      sextetVal_sextetChar _ (by omega)
    have e2 : sextetVal (sextetChar (a % 4 * 16)) = some (a % 4 * 16) :=
      sextetVal_sextetChar _ (by omega)
    simp only [b64encode, b64decode, e1, e2]
    have f1 : a / 4 * 4 + a % 4 * 16 / 16 = a := by omega
    rw [f1]
  | case4 => rfl

theorem hexdigit_roundtrip_fin : ∀ v : Fin 16, hexDigitVal (hexDigitChar v.val) = some v.val := by
  decide

theorem hexDigitVal_hexDigitChar (v : Nat) (h : v < 16) : hexDigitVal (hexDigitChar v) = some v :=
  hexdigit_roundtrip_fin ⟨v, h⟩

theorem hex_roundtrip (l : Bytes) (h : bytesOK l) : hexDecode (hexEncode l) = some l := by
  induction l with
  | nil => rfl
  | cons b rest ih =>
    have hb : b < 256 := h b (by simp)
    have e1 : hexDigitVal (hexDigitChar (b / 16)) = some (b / 16) :=
      hexDigitVal_hexDigitChar _ (by omega)
    have e2 : hexDigitVal (hexDigitChar (b % 16)) = some (b % 16) :=
      hexDigitVal_hexDigitChar _ (by omega)
    have eih : hexDecode (hexEncode rest) = some rest := by
      apply ih
      intro x hx
      exact h x (List.mem_cons_of_mem _ hx)
    simp only [hexEncode, hexDecode, e1, e2, eih, Option.map_some']
    have f1 : b / 16 * 16 + b % 16 = b := by omega
    rw [f1]

theorem base64_roundtrip (s : Stroopwafel) (h : s.wf) :
    ∃ e, s.to_base64 = .ok e ∧ Stroopwafel.from_base64 e = .ok s := by
  obtain ⟨m, hm, hok, hd⟩ := msgpack_roundtrip s h
  refine ⟨b64encode m, ?_, ?_⟩
  · unfold Stroopwafel.to_base64
    rw [hm]
    rfl
  · unfold Stroopwafel.from_base64
    simp only [b64_roundtrip m hok]
    exact hd

theorem hex_codec_roundtrip (s : Stroopwafel) (h : s.wf) :
    ∃ e, s.to_hex = .ok e ∧ Stroopwafel.from_hex e = .ok s := by
  obtain ⟨m, hm, hok, hd⟩ := msgpack_roundtrip s h
  refine ⟨hexEncode m, ?_, ?_⟩
  · unfold Stroopwafel.to_hex
    rw [hm]
    rfl
  · unfold Stroopwafel.from_hex
    simp only [hex_roundtrip m hok]
    exact hd

/-! ### JSON codec (spec section 4.6: same structure as the binary record,
binary fields base64-encoded; modelled at the level of the UTF-8 bytes of the
JSON text, so the location string's bytes pass through unescaped except for
quote, backslash and control bytes). -/

/-- Escape a string's bytes for a JSON string literal. -/
def jsonEscape : Bytes → Bytes
| [] => []
| b :: rest =>
  (if b = 34 then [92, 34]
   else if b = 92 then [92, 92]
   else if b < 32 then [92, 117, 48, 48, hexDigitChar (b / 16), hexDigitChar (b % 16)]
   else [b]) ++ jsonEscape rest

/-- Read a JSON string body up to the closing quote, undoing the escapes that
jsonEscape produces (quote, backslash, and backslash-u-zero-zero followed by
two hex digits); any other escape is rejected. -/
def jsonReadString : Bytes → Option (Bytes × Bytes)
| [] => none
| 34 :: rest => some ([], rest)
| 92 :: 34 :: rest => (jsonReadString rest).map (fun pr => (34 :: pr.1, pr.2))
| 92 :: 92 :: rest => (jsonReadString rest).map (fun pr => (92 :: pr.1, pr.2))
| 92 :: 117 :: 48 :: 48 :: d1 :: d2 :: rest =>
  (hexDigitVal d1).bind (fun v1 => (hexDigitVal d2).bind (fun v2 =>
    (jsonReadString rest).map (fun pr => ((v1 * 16 + v2) :: pr.1, pr.2))))
| 92 :: _ => none
| b :: rest => (jsonReadString rest).map (fun pr => (b :: pr.1, pr.2))

/-- Read an escape-free JSON string body (base64 text) up to the closing
quote. -/
def jsonReadRaw : Bytes → Option (Bytes × Bytes)
| [] => none
| b :: rest =>
  if b = 34 then some ([], rest)
  else (jsonReadRaw rest).map (fun pr => (b :: pr.1, pr.2))

/-- The JSON null literal. -/
def jsonNull : Bytes := [110, 117, 108, 108]

/-- Literal text of the caveat object up to the opening quote of caveat_id. -/
def jsonLitCidKey : Bytes := 123 :: litBytes "\"caveat_id\":\""

/-- Literal text before the verification_key_id value. -/
def jsonLitVkKey : Bytes := litBytes ",\"verification_key_id\":"

/-- Literal text before the caveat location value. -/
def jsonLitLocKey : Bytes := litBytes ",\"location\":"

/-- Literal text of the token object up to the location value. -/
def jsonLitTokenLoc : Bytes := 123 :: litBytes "\"location\":"

/-- Literal text before the identifier value (with its opening quote). -/
def jsonLitTokenId : Bytes := litBytes ",\"identifier\":\""

/-- Literal text before the caveats array (with its opening bracket). -/
def jsonLitTokenCavs : Bytes := litBytes ",\"caveats\":["

/-- Literal text before the signature value (with its opening quote). -/
def jsonLitTokenSig : Bytes := litBytes ",\"signature\":\""

/-- Optional binary field rendered as null or a base64 JSON string. -/
def jsonOptB64 : Option Bytes → Bytes
| none => jsonNull
| some s => 34 :: (b64encode s ++ [34])

/-- Optional string field rendered as null or an escaped JSON string. -/
def jsonOptString : Option Bytes → Bytes
| none => jsonNull
| some s => 34 :: (jsonEscape s ++ [34])

/-- One caveat rendered as a JSON object in declared field order. -/
def jsonCaveat (c : Caveat) : Bytes :=
  jsonLitCidKey ++ b64encode c.caveat_id ++ [34] ++
  jsonLitVkKey ++ jsonOptB64 c.verification_key_id ++
  jsonLitLocKey ++ jsonOptString c.location ++ [125]

/-- Second and later caveats, each preceded by a comma. -/
def jsonCaveatsTail : List Caveat → Bytes
| [] => []
| c :: cs => 44 :: (jsonCaveat c ++ jsonCaveatsTail cs)

/-- The body of the caveats array (between the brackets). -/
def jsonCaveatsBody : List Caveat → Bytes
| [] => []
| c :: cs => jsonCaveat c ++ jsonCaveatsTail cs

/-- The whole token rendered as a JSON object in declared field order. -/
def jsonEncodeToken (s : Stroopwafel) : Bytes :=
  jsonLitTokenLoc ++ jsonOptString s.location ++
  jsonLitTokenId ++ b64encode s.identifier ++ [34] ++
  jsonLitTokenCavs ++ jsonCaveatsBody s.caveats ++ [93] ++
  jsonLitTokenSig ++ b64encode s.signature ++ [34, 125]

/-- serialization.rs Stroopwafel::to_json. -/
def Stroopwafel.to_json (s : Stroopwafel) : Except StroopwafelError Bytes :=
  .ok (jsonEncodeToken s)

/-- Consume an expected literal text. -/
def chomp (pat l : Bytes) : Option Bytes :=
  if l.take pat.length = pat then some (l.drop pat.length) else none

/-- Parse null or a base64 JSON string into an optional byte field. -/
def jsonParseOptB64 (l : Bytes) : Option (Option Bytes × Bytes) :=
  match chomp jsonNull l with
  | some r => some (none, r)
  | none =>
    match l with
    | [] => none
    | b :: r =>
      if b = 34 then
        match jsonReadRaw r with
        | some (sb, r1) =>
          match b64decode sb with
          | some s => some (some s, r1)
          | none => none
        | none => none
      else none

/-- Parse null or an escaped JSON string into an optional string field. -/
def jsonParseOptString (l : Bytes) : Option (Option Bytes × Bytes) :=
  match chomp jsonNull l with
  | some r => some (none, r)
  | none =>
    match l with
    | [] => none
    | b :: r =>
      if b = 34 then (jsonReadString r).map (fun pr => (some pr.1, pr.2))
      else none

/-- Parse one caveat object. -/
def jsonParseCaveat (l : Bytes) : Option (Caveat × Bytes) :=
  match chomp jsonLitCidKey l with
  | none => none
  | some r =>
    match jsonReadRaw r with
    | none => none
    | some (cidB, r1) =>
      match b64decode cidB with
      | none => none
      | some cid =>
        match chomp jsonLitVkKey r1 with
        | none => none
        | some r2 =>
          match jsonParseOptB64 r2 with
          | none => none
          | some (vk, r3) =>
            match chomp jsonLitLocKey r3 with
            | none => none
            | some r4 =>
              match jsonParseOptString r4 with
              | none => none
              | some (loc, r5) =>
                match r5 with
                | 125 :: r6 => some (⟨cid, vk, loc⟩, r6)
                | _ => none

/-- Parse the remainder of a caveats array after one parsed caveat: either the
closing bracket or a comma and another caveat. -/
def jsonParseCaveatsAfter : Nat → Bytes → Option (List Caveat × Bytes)
| _, [] => none
| 0, _ :: _ => none
| fuel + 1, b :: r =>
  if b = 93 then some ([], r)
  else if b = 44 then
    match jsonParseCaveat r with
    | some (c, r1) => (jsonParseCaveatsAfter fuel r1).map (fun pr => (c :: pr.1, pr.2))
    | none => none
  else none

/-- Parse a caveats array body including the closing bracket. -/
def jsonParseCaveats (fuel : Nat) (l : Bytes) : Option (List Caveat × Bytes) :=
  match chomp [93] l with
  | some r => some ([], r)
  | none =>
    match jsonParseCaveat l with
    | some (c, r1) => (jsonParseCaveatsAfter fuel r1).map (fun pr => (c :: pr.1, pr.2))
    | none => none

/-- Parse a whole token object (the signature must decode to 32 bytes). -/
def jsonParseToken (fuel : Nat) (l : Bytes) : Option (Stroopwafel × Bytes) :=
  match chomp jsonLitTokenLoc l with
  | none => none
  | some r =>
    match jsonParseOptString r with
    | none => none
    | some (loc, r1) =>
      match chomp jsonLitTokenId r1 with
      | none => none
      | some r2 =>
        match jsonReadRaw r2 with
        | none => none
        | some (idB, r3) =>
          match b64decode idB with
          | none => none
          | some ident =>
            match chomp jsonLitTokenCavs r3 with
            | none => none
            | some r4 =>
              match jsonParseCaveats fuel r4 with
              | none => none
              | some (cavs, r5) =>
                match chomp jsonLitTokenSig r5 with
                | none => none
                | some r6 =>
                  match jsonReadRaw r6 with
                  | none => none
                  | some (sigB, r7) =>
                    match b64decode sigB with
                    | none => none
                    | some sig =>
                      if sig.length = 32 then
                        match r7 with
                        | 125 :: r8 => some (⟨loc, ident, cavs, sig⟩, r8)
                        | _ => none
                      else none

/-- Payload of the invalid-JSON DeserializationError. -/
def jsonDecodeMessage : Bytes := litBytes "invalid json"

/-- serialization.rs Stroopwafel::from_json. -/
def Stroopwafel.from_json (l : Bytes) : Except StroopwafelError Stroopwafel :=
  match jsonParseToken l.length l with
  | some (t, []) => .ok t
  | _ => .error (.DeserializationError jsonDecodeMessage)

/-! ### Round-trip lemmas for the JSON layer -/

theorem chomp_append (pat rest : Bytes) : chomp pat (pat ++ rest) = some rest := by
  unfold chomp
  rw [take_append_exact, if_pos rfl, drop_append_exact]

theorem chomp_cons_ne (p b : Nat) (ps l : Bytes) (h : b ≠ p) :
    chomp (p :: ps) (b :: l) = none := by
  unfold chomp
  rw [if_neg]
  intro hc
  rw [List.length_cons, List.take_succ_cons] at hc
  injection hc with h1 h2
  exact h h1

theorem jsonReadRaw_append (s : Bytes) (h : 34 ∉ s) :
    ∀ rest, jsonReadRaw (s ++ (34 :: rest)) = some (s, rest) := by
  induction s with
  | nil =>
    intro rest
    show jsonReadRaw (34 :: rest) = some ([], rest)
    simp only [jsonReadRaw]
    rw [if_pos (by trivial)]
  | cons b s ih =>
    intro rest
    have hb : b ≠ 34 := by
      intro hb
      exact h (hb ▸ List.mem_cons_self b s)
    show jsonReadRaw (b :: (s ++ (34 :: rest))) = some (b :: s, rest)
    simp only [jsonReadRaw]
    rw [if_neg hb, ih (fun hm => h (List.mem_cons_of_mem b hm)) rest]
    rfl

theorem sextetChar_ne_quote (v : Nat) : sextetChar v ≠ 34 := by
  unfold sextetChar
  split_ifs <;> omega

theorem b64encode_no_quote (l : Bytes) : 34 ∉ b64encode l := by
  induction l using b64encode.induct with
  | case1 a b c rest ih =>
    intro hm
    simp only [b64encode] at hm
    rcases List.mem_cons.mp hm with h | h
    · exact sextetChar_ne_quote _ h.symm
    · rcases List.mem_cons.mp h with h | h
      · exact sextetChar_ne_quote _ h.symm
      · rcases List.mem_cons.mp h with h | h
        · exact sextetChar_ne_quote _ h.symm
        · rcases List.mem_cons.mp h with h | h
          · exact sextetChar_ne_quote _ h.symm
          · exact ih h
  | case2 a b =>
    intro hm
    simp only [b64encode] at hm
    rcases List.mem_cons.mp hm with h | h
    · exact sextetChar_ne_quote _ h.symm
    · rcases List.mem_cons.mp h with h | h
      · exact sextetChar_ne_quote _ h.symm
      · rcases List.mem_cons.mp h with h | h
        · exact sextetChar_ne_quote _ h.symm
        · cases h
  | case3 a =>
    intro hm
    simp only [b64encode] at hm
    rcases List.mem_cons.mp hm with h | h
    · exact sextetChar_ne_quote _ h.symm
    · rcases List.mem_cons.mp h with h | h
      · exact sextetChar_ne_quote _ h.symm
      · cases h
  | case4 =>
    intro hm
    cases hm

theorem jsonReadString_step_other (b : Nat) (r : Bytes) (h34 : b ≠ 34) (h92 : b ≠ 92) :
    jsonReadString (b :: r) = (jsonReadString r).map (fun pr => (b :: pr.1, pr.2)) := by
  rw [jsonReadString.eq_def]
  split <;> first | rfl | omega | simp_all

theorem jsonReadString_escape (s : Bytes) :
    ∀ rest, jsonReadString (jsonEscape s ++ (34 :: rest)) = some (s, rest) := by
  induction s with
  | nil =>
    intro rest
    show jsonReadString (34 :: rest) = some ([], rest)
    rfl
  | cons b s ih =>
    intro rest
    by_cases h34 : b = 34
    · subst h34
      show jsonReadString (92 :: 34 :: (jsonEscape s ++ (34 :: rest))) = some (34 :: s, rest)
      rw [show jsonReadString (92 :: 34 :: (jsonEscape s ++ (34 :: rest)))
          = (jsonReadString (jsonEscape s ++ (34 :: rest))).map (fun pr => (34 :: pr.1, pr.2))
        from rfl]
      rw [ih rest]
      rfl
    · by_cases h92 : b = 92
      · subst h92
        show jsonReadString (92 :: 92 :: (jsonEscape s ++ (34 :: rest))) = some (92 :: s, rest)
        rw [show jsonReadString (92 :: 92 :: (jsonEscape s ++ (34 :: rest)))
            = (jsonReadString (jsonEscape s ++ (34 :: rest))).map (fun pr => (92 :: pr.1, pr.2))
          from rfl]
        rw [ih rest]
        rfl
      · by_cases hctl : b < 32
        · have hesc : jsonEscape (b :: s)
              = [92, 117, 48, 48, hexDigitChar (b / 16), hexDigitChar (b % 16)]
                ++ jsonEscape s := by
            simp only [jsonEscape]
            rw [if_neg h34, if_neg h92, if_pos hctl]
          rw [hesc]
          show jsonReadString (92 :: 117 :: 48 :: 48 :: hexDigitChar (b / 16) ::
              hexDigitChar (b % 16) :: (jsonEscape s ++ (34 :: rest))) = some (b :: s, rest)
          rw [show jsonReadString (92 :: 117 :: 48 :: 48 :: hexDigitChar (b / 16) ::
                hexDigitChar (b % 16) :: (jsonEscape s ++ (34 :: rest)))
              = (hexDigitVal (hexDigitChar (b / 16))).bind (fun v1 =>
                  (hexDigitVal (hexDigitChar (b % 16))).bind (fun v2 =>
                    (jsonReadString (jsonEscape s ++ (34 :: rest))).map
                      (fun pr => ((v1 * 16 + v2) :: pr.1, pr.2))))
            from rfl]
          have e1 : hexDigitVal (hexDigitChar (b / 16)) = some (b / 16) :=
            hexDigitVal_hexDigitChar _ (by omega)
          have e2 : hexDigitVal (hexDigitChar (b % 16)) = some (b % 16) :=
            hexDigitVal_hexDigitChar _ (by omega)
          rw [e1, e2]
          simp only [Option.some_bind]
          rw [ih rest]
          have f1 : b / 16 * 16 + b % 16 = b := by omega
          simp only [Option.map_some', f1]
        · have hesc : jsonEscape (b :: s) = [b] ++ jsonEscape s := by
            simp only [jsonEscape]
            rw [if_neg h34, if_neg h92, if_neg hctl]
          rw [hesc]
          show jsonReadString (b :: (jsonEscape s ++ (34 :: rest))) = some (b :: s, rest)
          rw [jsonReadString_step_other b _ h34 h92, ih rest]
          rfl

theorem jsonParseOptB64_enc (o : Option Bytes) (hb : bytesOK (o.getD [])) :
    ∀ rest, jsonParseOptB64 (jsonOptB64 o ++ rest) = some (o, rest) := by
  cases o with
  | none =>
    intro rest
    show jsonParseOptB64 (jsonNull ++ rest) = some (none, rest)
    unfold jsonParseOptB64
    rw [chomp_append]
  | some s =>
    intro rest
    have hsh : jsonOptB64 (some s) ++ rest = 34 :: (b64encode s ++ (34 :: rest)) := by
      show (34 :: (b64encode s ++ [34])) ++ rest = _
      simp [List.append_assoc]
    rw [hsh]
    have hnull : chomp jsonNull (34 :: (b64encode s ++ (34 :: rest))) = none :=
      chomp_cons_ne 110 34 _ _ (by decide)
    have hraw : jsonReadRaw (b64encode s ++ (34 :: rest)) = some (b64encode s, rest) :=
      jsonReadRaw_append (b64encode s) (b64encode_no_quote s) rest
    unfold jsonParseOptB64
    simp only [hnull, hraw, b64_roundtrip s hb]
    rw [if_pos (by trivial)]

theorem jsonParseOptString_enc (o : Option Bytes) :
    ∀ rest, jsonParseOptString (jsonOptString o ++ rest) = some (o, rest) := by
  cases o with
  | none =>
    intro rest
    show jsonParseOptString (jsonNull ++ rest) = some (none, rest)
    unfold jsonParseOptString
    rw [chomp_append]
  | some s =>
    intro rest
    have hsh : jsonOptString (some s) ++ rest = 34 :: (jsonEscape s ++ (34 :: rest)) := by
      show (34 :: (jsonEscape s ++ [34])) ++ rest = _
      simp [List.append_assoc]
    rw [hsh]
    have hnull : chomp jsonNull (34 :: (jsonEscape s ++ (34 :: rest))) = none :=
      chomp_cons_ne 110 34 _ _ (by decide)
    unfold jsonParseOptString
    simp only [hnull, jsonReadString_escape s rest]
    rw [if_pos (by trivial)]
    rfl

theorem jsonParseCaveat_enc (c : Caveat) (hcid : bytesOK c.caveat_id)
    (hvk : bytesOK (c.verification_key_id.getD [])) :
    ∀ rest, jsonParseCaveat (jsonCaveat c ++ rest) = some (c, rest) := by
  intro rest
  have hsh : jsonCaveat c ++ rest
      = jsonLitCidKey ++ (b64encode c.caveat_id ++ (34 :: (jsonLitVkKey ++
        (jsonOptB64 c.verification_key_id ++ (jsonLitLocKey ++
          (jsonOptString c.location ++ (125 :: rest))))))) := by
    unfold jsonCaveat
    simp [List.append_assoc]
  rw [hsh]
  have hraw : jsonReadRaw (b64encode c.caveat_id ++ (34 :: (jsonLitVkKey ++
      (jsonOptB64 c.verification_key_id ++ (jsonLitLocKey ++
        (jsonOptString c.location ++ (125 :: rest)))))))
      = some (b64encode c.caveat_id, jsonLitVkKey ++
        (jsonOptB64 c.verification_key_id ++ (jsonLitLocKey ++
          (jsonOptString c.location ++ (125 :: rest))))) :=
    jsonReadRaw_append _ (b64encode_no_quote _) _
  unfold jsonParseCaveat
  simp only [chomp_append, hraw, b64_roundtrip c.caveat_id hcid,
    jsonParseOptB64_enc c.verification_key_id hvk,
    jsonParseOptString_enc c.location]

theorem jsonParseCaveatsAfter_enc (cs : List Caveat)
    (h : ∀ c ∈ cs, bytesOK c.caveat_id ∧ bytesOK (c.verification_key_id.getD [])) :
    ∀ fuel, cs.length < fuel → ∀ rest,
      jsonParseCaveatsAfter fuel (jsonCaveatsTail cs ++ (93 :: rest)) = some (cs, rest) := by
  induction cs with
  | nil =>
    intro fuel hfuel rest
    cases fuel with
    | zero => omega
    | succ f =>
      show jsonParseCaveatsAfter (f + 1) (93 :: rest) = some ([], rest)
      simp only [jsonParseCaveatsAfter]
      rw [if_pos (by trivial)]
  | cons c cs ih =>
    intro fuel hfuel rest
    cases fuel with
    | zero => omega
    | succ f =>
      have hsh : jsonCaveatsTail (c :: cs) ++ (93 :: rest)
          = 44 :: (jsonCaveat c ++ (jsonCaveatsTail cs ++ (93 :: rest))) := by
        show (44 :: (jsonCaveat c ++ jsonCaveatsTail cs)) ++ (93 :: rest) = _
        simp [List.append_assoc]
      rw [hsh]
      simp only [jsonParseCaveatsAfter]
      rw [if_neg (by decide), if_pos (by trivial)]
      have hc := h c (List.mem_cons_self c cs)
      simp only [jsonParseCaveat_enc c hc.1 hc.2]
      have hlen : cs.length < f := by
        simp only [List.length_cons] at hfuel
        omega
      rw [ih (fun c' hc' => h c' (List.mem_cons_of_mem c hc')) f hlen rest]
      rfl

theorem jsonParseCaveats_enc (cs : List Caveat)
    (h : ∀ c ∈ cs, bytesOK c.caveat_id ∧ bytesOK (c.verification_key_id.getD []))
    (fuel : Nat) (hfuel : cs.length ≤ fuel) :
    ∀ rest, jsonParseCaveats fuel (jsonCaveatsBody cs ++ (93 :: rest)) = some (cs, rest) := by
  cases cs with
  | nil =>
    intro rest
    show jsonParseCaveats fuel (93 :: rest) = some ([], rest)
    unfold jsonParseCaveats
    have h93 : chomp [93] (93 :: rest) = some rest := chomp_append [93] rest
    rw [h93]
  | cons c cs =>
    intro rest
    have hsh : jsonCaveatsBody (c :: cs) ++ (93 :: rest)
        = jsonCaveat c ++ (jsonCaveatsTail cs ++ (93 :: rest)) := by
      show (jsonCaveat c ++ jsonCaveatsTail cs) ++ (93 :: rest) = _
      simp [List.append_assoc]
    rw [hsh]
    unfold jsonParseCaveats
    obtain ⟨t, ht⟩ : ∃ t, jsonCaveat c = 123 :: t := ⟨_, rfl⟩
    have hnull : chomp [93] (jsonCaveat c ++ (jsonCaveatsTail cs ++ (93 :: rest))) = none := by
      rw [ht]
      show chomp [93] (123 :: (t ++ (jsonCaveatsTail cs ++ (93 :: rest)))) = none
      exact chomp_cons_ne 93 123 _ _ (by decide)
    have hc := h c (List.mem_cons_self c cs)
    have hlen : cs.length < fuel := by
      simp only [List.length_cons] at hfuel
      omega
    simp only [hnull, jsonParseCaveat_enc c hc.1 hc.2,
      jsonParseCaveatsAfter_enc cs (fun c' hc' => h c' (List.mem_cons_of_mem c hc')) fuel hlen]
    rfl

theorem jsonCaveat_length_pos (c : Caveat) : 1 ≤ (jsonCaveat c).length := by
  obtain ⟨t, ht⟩ : ∃ t, jsonCaveat c = 123 :: t := ⟨_, rfl⟩
  rw [ht]
  simp

theorem jsonCaveatsTail_length (cs : List Caveat) :
    cs.length ≤ (jsonCaveatsTail cs).length := by
  induction cs with
  | nil => simp [jsonCaveatsTail]
  | cons c cs ih =>
    have := jsonCaveat_length_pos c
    simp only [jsonCaveatsTail, List.length_cons, List.length_append]
    omega

theorem jsonCaveatsBody_length (cs : List Caveat) :
    cs.length ≤ (jsonCaveatsBody cs).length := by
  cases cs with
  | nil => simp [jsonCaveatsBody]
  | cons c cs =>
    have h1 := jsonCaveat_length_pos c
    have h2 := jsonCaveatsTail_length cs
    simp only [jsonCaveatsBody, List.length_cons, List.length_append]
    omega

theorem jsonParseToken_enc (s : Stroopwafel) (h : s.wf) (fuel : Nat)
    (hfuel : s.caveats.length ≤ fuel) :
    ∀ rest, jsonParseToken fuel (jsonEncodeToken s ++ rest) = some (s, rest) := by
  obtain ⟨hloc, hid, hclen, hcwf, hsb, hslen⟩ := h
  intro rest
  have hcavOK : ∀ c ∈ s.caveats,
      bytesOK c.caveat_id ∧ bytesOK (c.verification_key_id.getD []) :=
    fun c hc => ⟨(hcwf c hc).1.1, (hcwf c hc).2.1.1⟩
  unfold jsonEncodeToken jsonParseToken
  simp only [List.append_assoc, List.cons_append, List.nil_append, List.singleton_append]
  simp only [chomp_append, jsonParseOptString_enc s.location,
    jsonReadRaw_append _ (b64encode_no_quote s.identifier),
    jsonReadRaw_append _ (b64encode_no_quote s.signature),
    b64_roundtrip s.identifier hid.1, b64_roundtrip s.signature hsb,
    jsonParseCaveats_enc s.caveats hcavOK fuel hfuel]
  rw [if_pos hslen]

theorem json_roundtrip (s : Stroopwafel) (h : s.wf) :
    ∃ e, s.to_json = .ok e ∧ Stroopwafel.from_json e = .ok s := by
  refine ⟨jsonEncodeToken s, rfl, ?_⟩
  have hfuel : s.caveats.length ≤ (jsonEncodeToken s).length := by
    have h1 := jsonCaveatsBody_length s.caveats
    unfold jsonEncodeToken
    simp only [List.length_append]
    omega
  have hp : jsonParseToken (jsonEncodeToken s).length (jsonEncodeToken s ++ [])
      = some (s, []) := jsonParseToken_enc s h _ hfuel []
  rw [List.append_nil] at hp
  unfold Stroopwafel.from_json
  simp only [hp]

/-- A codec round trip: encoding succeeds and decoding the encoded text
restores the token. -/
def codecRoundtrip (enc : Stroopwafel → Except StroopwafelError Bytes)
    (dec : Bytes → Except StroopwafelError Stroopwafel) (s : Stroopwafel) : Prop :=
  ∃ e, enc s = .ok e ∧ dec e = .ok s

/-- C7: for every well-formed token (byte-valued fields, encodable lengths,
32-byte signature — all automatic for tokens held in the Rust types), encoding
and then decoding through each of the four codecs (MessagePack, JSON, URL-safe
unpadded base64 over MessagePack, lowercase hex over MessagePack) succeeds and
restores the token with all four fields equal. -/
theorem C7_codec_roundtrips (s : Stroopwafel) (h : s.wf) :
    codecRoundtrip Stroopwafel.to_msgpack Stroopwafel.from_msgpack s ∧
    codecRoundtrip Stroopwafel.to_json Stroopwafel.from_json s ∧
    codecRoundtrip Stroopwafel.to_base64 Stroopwafel.from_base64 s ∧
    codecRoundtrip Stroopwafel.to_hex Stroopwafel.from_hex s := by
  obtain ⟨m, hm, hok, hd⟩ := msgpack_roundtrip s h
  exact ⟨⟨m, hm, hd⟩, json_roundtrip s h, base64_roundtrip s h, hex_codec_roundtrip s h⟩

/-- A concrete well-formed token: location, three caveat-bearing fields and a
32-byte signature. -/
def tokenExample : Stroopwafel :=
  { location := some [104, 105]
    identifier := [1, 2, 3]
    caveats := [Caveat.first_party [97, 61, 98], Caveat.third_party [4] [5, 6] [7]]
    signature := List.replicate 32 9 }

/-- Concrete instantiation of the codec round-trip theorem. -/
theorem C7_codec_roundtrips_witness :
    tokenExample.wf ∧
    (codecRoundtrip Stroopwafel.to_msgpack Stroopwafel.from_msgpack tokenExample ∧
     codecRoundtrip Stroopwafel.to_json Stroopwafel.from_json tokenExample ∧
     codecRoundtrip Stroopwafel.to_base64 Stroopwafel.from_base64 tokenExample ∧
     codecRoundtrip Stroopwafel.to_hex Stroopwafel.from_hex tokenExample) :=
  ⟨by decide, C7_codec_roundtrips tokenExample (by decide)⟩
